import Mathlib

/-!
Verification of the Polars transformation pipeline in
`pokemon_etl/dagster/assets.py`.

A dataframe is embedded as an ordered header of column names plus a list
of rows of cell values.  Machine floats are idealised as exact rationals
extended with the IEEE special values `inf`, `-inf` and `nan`; none of
the properties proved below depends on float rounding.  Fallible steps
(the lazy plans that raise at collect time) return `Except String Table`.
-/

namespace PokemonEtl

/-- A cell value of a Polars column: integers, strings, floats
(idealised: finite floats as exact rationals, plus the IEEE specials)
and null. -/
inductive Val where
  | vInt : Int → Val
  | vStr : String → Val
  | vRat : Rat → Val
  | vInf : Val
  | vNegInf : Val
  | vNaN : Val
  | vNull : Val
deriving DecidableEq, Repr

/-- A dataframe: ordered header of column names and a list of rows.
A well-formed frame has every row of the same length as its header. -/
structure Table where
  header : List String
  rows : List (List Val)
deriving DecidableEq, Repr

deriving instance DecidableEq for Except

/-- Well-formedness: each row covers exactly the columns of the header. -/
def Table.WF (t : Table) : Prop :=
  ∀ r ∈ t.rows, r.length = t.header.length

instance (t : Table) : Decidable t.WF := by
  unfold Table.WF
  infer_instance

/-- Look a cell up by column name: the value under the first column
called `k`, or `none` when the column is absent. -/
def rowGet : List String → List Val → String → Option Val
  | [], _, _ => none
  | _ :: _, [], _ => none
  | c :: h, v :: r, k => if c = k then some v else rowGet h r k

/-- The values of a row at all columns other than the key column, in
header order (the right-hand projection taken by a Polars join). -/
def dropKey : List String → List Val → String → List Val
  | [], _, _ => []
  | _ :: _, [], _ => []
  | c :: h, v :: r, k => if c = k then dropKey h r k else v :: dropKey h r k

/-- Output header of a Polars join: the left columns, then the right
columns other than the key, those clashing with a left name carrying the
default `_right` suffix. -/
def joinHeader (lh rh : List String) (k : String) : List String :=
  lh ++ (rh.filter (fun c => c ≠ k)).map
    (fun c => if lh.contains c then c ++ "_right" else c)

/-- Null test. -/
def Val.isNullV : Val → Bool
  | .vNull => true
  | _ => false

/-- Join-key equality (polars default `join_nulls=False`): two equal
non-null values match; null keys and absent columns never match. -/
def oEq : Option Val → Option Val → Bool
  | some x, some y => !x.isNullV && !y.isNullV && decide (x = y)
  | _, _ => false

/-- Rows of an inner join on key `k`: every left row paired with each
right row sharing its key value, the right row stripped of the key. -/
def joinRows (lh : List String) (lrows : List (List Val))
    (rh : List String) (rrows : List (List Val)) (k : String) : List (List Val) :=
  lrows.flatMap (fun lr =>
    (rrows.filter (fun rr => oEq (rowGet lh lr k) (rowGet rh rr k))).map
      (fun rr => lr ++ dropKey rh rr k))

/-- Polars inner join on one key column (`left.join(right, k)`): errors
when the key is missing from either side, or when a column name of the
output (after `_right` suffixing) is still duplicated; otherwise pairs
every left row with the right rows sharing its key value. -/
def Table.join (l r : Table) (k : String) : Except String Table :=
  if l.header.contains k = false then
    .error ("join key column not found in left input: " ++ k)
  else if r.header.contains k = false then
    .error ("join key column not found in right input: " ++ k)
  else if (joinHeader l.header r.header k).Nodup then
    .ok ⟨joinHeader l.header r.header k,
         joinRows l.header l.rows r.header r.rows k⟩
  else
    .error "duplicate column names in join output"

/-- `joined_table`: inner join of the base, battle and reproduction
tables on `ID` (assets.py lines 92-112). -/
def joined_table (raw_base_table raw_battle_table raw_repro_table : Table) :
    Except String Table := do
  let t ← raw_base_table.join raw_battle_table "ID"
  t.join raw_repro_table "ID"

/-- The rename mapping of `renamed_table` (assets.py lines 137-144). -/
def renameMapping : List (String × String) :=
  [("Type 1", "TYPE_1"), ("Type 2", "TYPE_2"),
   ("Sp. Attack", "SP_ATTACK"), ("Sp. Defense", "SP_DEFENSE")]

/-- New name of one column under the rename mapping. -/
def renameCol (c : String) : String :=
  ((renameMapping.find? (fun p => p.1 = c)).map Prod.snd).getD c

/-- `renamed_table`: strict rename (errors when a source column is
missing, or when the renamed header has a duplicate). -/
def renamed_table (t : Table) : Except String Table :=
  if renameMapping.all (fun p => t.header.contains p.1) then
    if (t.header.map renameCol).Nodup then
      .ok ⟨t.header.map renameCol, t.rows⟩
    else .error "duplicate column names after rename"
  else .error "rename source column not found"

/-- Rational division computed on numerators and denominators (equal to
`x / y`; see `divQ_eq` below — the library's division operator does not
evaluate inside the kernel). -/
def divQ (x y : Rat) : Rat := Rat.divInt (x.num * y.den) ((x.den : Int) * y.num)

/-- Rational squaring computed on numerators and denominators (equal to
`q ^ 2`; see `sqQ_eq` below). -/
def sqQ (q : Rat) : Rat := Rat.divInt (q.num * q.num) ((q.den : Int) * q.den)

/-- Rational addition computed on numerators and denominators (equal to
`x + y`; see `addQ_eq` below). -/
def addQ (x y : Rat) : Rat :=
  Rat.divInt (x.num * y.den + y.num * x.den) ((x.den : Int) * y.den)

/-- Rational multiplication computed on numerators and denominators
(equal to `x * y`; see `mulQ_eq` below). -/
def mulQ (x y : Rat) : Rat := Rat.divInt (x.num * y.num) ((x.den : Int) * y.den)

/-- Rational negation computed on the numerator (equal to `-q`; see
`negQ_eq` below). -/
def negQ (q : Rat) : Rat := Rat.divInt (-q.num) (q.den : Int)

/-- Rational subtraction (equal to `x - y`; see `subQ_eq` below). -/
def subQ (x y : Rat) : Rat := addQ x (negQ y)

/-- Floor of a rational computed on the numerator and denominator (equal
to Mathlib's floor; see `floorQ_eq` below). -/
def floorQ (q : Rat) : Int := Int.ediv q.num (q.den : Int)

/-- Fuel-bounded binary logarithm: with enough fuel, the exponent of the
highest binary digit of `n` (see `log2F_bounds` below). -/
def log2F : Nat → Nat → Nat
  | 0, _ => 0
  | fuel + 1, n => if 2 ≤ n then log2F fuel (n / 2) + 1 else 0

/-- The power `(2 : ℚ) ^ e` for an integer exponent, computed on
numerators and denominators (see `pow2Q_eq` below). -/
def pow2Q (e : Int) : Rat :=
  if 0 ≤ e then mkRat (2 ^ e.toNat) 1 else mkRat 1 (2 ^ (-e).toNat)

/-- Round a rational to the nearest integer, ties to even — the IEEE 754
default rounding applied to a scaled significand. -/
def rne (r : Rat) : Int :=
  if subQ r (mkRat (floorQ r) 1) < mkRat 1 2 then floorQ r
  else if mkRat 1 2 < subQ r (mkRat (floorQ r) 1) then floorQ r + 1
  else if floorQ r % 2 = 0 then floorQ r else floorQ r + 1

/-- The binary exponent of a positive rational: the `e` with
`2 ^ e ≤ q < 2 ^ (e + 1)` (see `qlog2_spec` below; the fuel 64 covers
every numerator and denominator below `2 ^ 64`, in particular every
value an Int64 column can hold and every pairwise quotient of such
values). -/
def qlog2 (q : Rat) : Int :=
  if pow2Q ((log2F 64 q.num.natAbs : Int) - (log2F 64 q.den : Int)) ≤ q then
    (log2F 64 q.num.natAbs : Int) - (log2F 64 q.den : Int)
  else (log2F 64 q.num.natAbs : Int) - (log2F 64 q.den : Int) - 1

/-- Binary64 rounding of a positive rational: the scaled significand
`q * 2 ^ (52 - e)` (a value in `[2 ^ 52, 2 ^ 53)`) is rounded to the
nearest integer, ties to even, and scaled back. -/
def roundPos (q : Rat) : Rat :=
  mulQ (mkRat (rne (mulQ q (pow2Q (52 - qlog2 q)))) 1) (pow2Q (qlog2 q - 52))

/-- Round-to-nearest-even at 53 significand bits: the value an IEEE 754
Float64 stores for an exact rational (exponent overflow and subnormals
lie outside the range any Int64-derived value of this pipeline reaches
and are not modelled). -/
def roundF64 (q : Rat) : Rat :=
  if 0 < q then roundPos q
  else if q < 0 then negQ (roundPos (negQ q))
  else 0

/-- The finite numeric reading of a cell. -/
def toQ : Val → Option Rat
  | .vInt n => some (mkRat n 1)
  | .vRat q => some q
  | _ => none

/-- Values a float column may hold. -/
def isFloatV : Val → Bool
  | .vRat _ => true
  | .vInf => true
  | .vNegInf => true
  | .vNaN => true
  | _ => false

/-- Numeric values: integers and floats. -/
def isNumV : Val → Bool
  | .vInt _ => true
  | v => isFloatV v

/-- Cells a numeric expression accepts: numeric values or null. -/
def numOrNull (v : Val) : Bool := isNumV v || v.isNullV

/-- The predicate of `filter(GEN=1)`: the GEN cell reads as the number
1 (null never matches). -/
def genIsOne (h : List String) (r : List Val) : Bool :=
  match (rowGet h r "GEN").bind toQ with
  | some q => decide (q = 1)
  | none => false

/-- `filtered_table`: `renamed_table.filter(GEN=1)` (assets.py line 165).
Keeps the rows whose `GEN` cell equals the integer 1 (numeric equality;
null never matches); errors when `GEN` is missing or non-numeric. -/
def filtered_table (t : Table) : Except String Table :=
  if t.header.contains "GEN" = false then
    .error "filter column not found: GEN"
  else if t.rows.all (fun r => numOrNull ((rowGet t.header r "GEN").getD .vNull)) then
    .ok ⟨t.header, t.rows.filter (genIsOne t.header)⟩
  else .error "cannot compare GEN column with an integer"

/-- `type_count_table`: `select(pl.col("ID"),
TYPE_COUNT=pl.count().over("TYPE_1"))` (assets.py line 187) — a window
count over the rows sharing the row's `TYPE_1` value (nulls group
together), one output row per input row. -/
def type_count_table (t : Table) : Except String Table :=
  if t.header.contains "ID" && t.header.contains "TYPE_1" then
    .ok ⟨["ID", "TYPE_COUNT"],
      t.rows.map (fun r =>
        [(rowGet t.header r "ID").getD .vNull,
         .vInt (t.rows.countP (fun s =>
           decide (rowGet t.header s "TYPE_1" = rowGet t.header r "TYPE_1")))])⟩
  else .error "column not found: ID or TYPE_1"

/-- Polars `+` on cells: null propagates; integer addition stays
integral; otherwise float addition with the IEEE specials.  Non-numeric
operands are excluded by the validity check of each caller. -/
def valAdd (a b : Val) : Val :=
  match a, b with
  | .vNull, _ => .vNull
  | _, .vNull => .vNull
  | .vInt x, .vInt y => .vInt (x + y)
  | .vNaN, _ => .vNaN
  | _, .vNaN => .vNaN
  | .vInf, .vNegInf => .vNaN
  | .vNegInf, .vInf => .vNaN
  | .vInf, _ => .vInf
  | _, .vInf => .vInf
  | .vNegInf, _ => .vNegInf
  | _, .vNegInf => .vNegInf
  | a, b =>
    match toQ a, toQ b with
    | some x, some y => .vRat (addQ x y)
    | _, _ => .vNaN

/-- The six summand columns of `calculated_base_stats_table`. -/
def statCols : List String :=
  ["HP", "ATTACK", "DEFENSE", "SP_ATTACK", "SP_DEFENSE", "SPEED"]

/-- `calculated_base_stats_table`: per-row sum
HP + ATTACK + DEFENSE + SP_ATTACK + SP_DEFENSE + SPEED
(assets.py lines 214-222). -/
def calculated_base_stats_table (t : Table) : Except String Table :=
  if ("ID" :: statCols).all (fun c => t.header.contains c) then
    if t.rows.all (fun r => statCols.all (fun c =>
        numOrNull ((rowGet t.header r c).getD .vNull))) then
      .ok ⟨["ID", "BASE_STATS"],
        t.rows.map (fun r =>
          [(rowGet t.header r "ID").getD .vNull,
           valAdd (valAdd (valAdd (valAdd (valAdd
             ((rowGet t.header r "HP").getD .vNull)
             ((rowGet t.header r "ATTACK").getD .vNull))
             ((rowGet t.header r "DEFENSE").getD .vNull))
             ((rowGet t.header r "SP_ATTACK").getD .vNull))
             ((rowGet t.header r "SP_DEFENSE").getD .vNull))
             ((rowGet t.header r "SPEED").getD .vNull)])⟩
    else .error "base stat operand must be numeric"
  else .error "column not found among base stat columns"

/-- Polars `/` on cells, idealising finite floats as exact rationals and
keeping the IEEE rules for zero divisors and infinities. -/
def valDiv (a b : Val) : Val :=
  match a, b with
  | .vNull, _ => .vNull
  | _, .vNull => .vNull
  | .vNaN, _ => .vNaN
  | _, .vNaN => .vNaN
  | .vInf, .vInf => .vNaN
  | .vInf, .vNegInf => .vNaN
  | .vNegInf, .vInf => .vNaN
  | .vNegInf, .vNegInf => .vNaN
  | .vInf, b =>
    match toQ b with
    | some y => if 0 ≤ y then .vInf else .vNegInf
    | none => .vNaN
  | .vNegInf, b =>
    match toQ b with
    | some y => if 0 ≤ y then .vNegInf else .vInf
    | none => .vNaN
  | a, .vInf =>
    match toQ a with
    | some _ => .vRat 0
    | none => .vNaN
  | a, .vNegInf =>
    match toQ a with
    | some _ => .vRat 0
    | none => .vNaN
  | a, b =>
    match toQ a, toQ b with
    | some x, some y =>
      if y = 0 then
        if 0 < x then .vInf else if x < 0 then .vNegInf else .vNaN
      else .vRat (divQ x y)
    | _, _ => .vNaN

/-- Polars `.pow(2)` on a cell. -/
def valPow2 : Val → Val
  | .vNull => .vNull
  | .vNaN => .vNaN
  | .vInf => .vInf
  | .vNegInf => .vInf
  | .vInt n => .vInt (n ^ 2)
  | .vRat q => .vRat (sqQ q)
  | v => v

/-- `cast(pl.Float32)` on a cell, float rounding idealised away (the
exact value is kept; no claim below depends on Float32 rounding). -/
def castFloat32 : Val → Val
  | .vInt n => .vRat (mkRat n 1)
  | .vRat q => .vRat q
  | v => v

/-- Columns read by `calculated_bmi_table`. -/
def bmiCols : List String := ["ID", "WEIGHT_KILOGRAMS", "HEIGHT_METERS"]

/-- `calculated_bmi_table`: cast `HEIGHT_METERS` to Float32, then select
`ID` and `BMI = WEIGHT_KILOGRAMS / HEIGHT_METERS.pow(2)` (assets.py
lines 269-273). -/
def calculated_bmi_table (t : Table) : Except String Table :=
  if bmiCols.all (fun c => t.header.contains c) then
    if t.rows.all (fun r =>
        numOrNull ((rowGet t.header r "WEIGHT_KILOGRAMS").getD .vNull) &&
        numOrNull ((rowGet t.header r "HEIGHT_METERS").getD .vNull)) then
      .ok ⟨["ID", "BMI"],
        t.rows.map (fun r =>
          [(rowGet t.header r "ID").getD .vNull,
           valDiv ((rowGet t.header r "WEIGHT_KILOGRAMS").getD .vNull)
             (valPow2 (castFloat32 ((rowGet t.header r "HEIGHT_METERS").getD .vNull)))])⟩
    else .error "BMI operand must be numeric"
  else .error "column not found among BMI columns"

/-- Ceiling of a rational, computed on the numerator and denominator
(equal to Mathlib's ceiling; see `ceilQ_eq` below). -/
def ceilQ (q : Rat) : Int := -(Int.ediv (-q.num) (q.den : Int))

/-- Polars `.ceil()` on a cell (floats round up to an integral float;
null and the specials are fixed points). -/
def ceilV : Val → Val
  | .vRat q => .vRat (mkRat (ceilQ q) 1)
  | v => v

/-- `cast(pl.Int64)` on a cell: floats truncate toward zero. -/
def castInt64 : Val → Val
  | .vRat q => .vInt (Int.tdiv q.num (q.den : Int))
  | v => v

/-- `cast(pl.Float64)` on a cell: an integer rounds to the nearest
binary64 value (ties to even; exact below `2 ^ 53`). -/
def castFloat64 : Val → Val
  | .vInt n => .vRat (roundF64 (mkRat n 1))
  | v => v

/-- Binary64 rounding of a finite float result. -/
def roundV : Val → Val
  | .vRat q => .vRat (roundF64 q)
  | v => v

/-- Polars `/` between integer columns: both operands are cast to
Float64 and the exact quotient is rounded back to binary64. -/
def f64Div (a b : Val) : Val := roundV (valDiv (castFloat64 a) (castFloat64 b))

/-- `calculated_egg_hatch_time_table`: select `ID` and
`EGG_HATCH_TIME = (EGG_STEPS / 100).ceil().cast(Int64)` (assets.py
lines 244-246); the division of the Int64 column runs in Float64. -/
def calculated_egg_hatch_time_table (t : Table) : Except String Table :=
  if t.header.contains "ID" && t.header.contains "EGG_STEPS" then
    if t.rows.all (fun r => numOrNull ((rowGet t.header r "EGG_STEPS").getD .vNull)) then
      .ok ⟨["ID", "EGG_HATCH_TIME"],
        t.rows.map (fun r =>
          [(rowGet t.header r "ID").getD .vNull,
           castInt64 (ceilV (f64Div ((rowGet t.header r "EGG_STEPS").getD .vNull)
             (.vInt 100)))])⟩
    else .error "EGG_STEPS operand must be numeric"
  else .error "column not found: ID or EGG_STEPS"

/-- Polars float ordering used by `rank`: -inf < finite < inf < nan. -/
def valLt (a b : Val) : Bool :=
  match a, b with
  | .vInt x, .vInt y => decide (x < y)
  | .vInt x, .vRat y => decide (mkRat x 1 < y)
  | .vRat x, .vInt y => decide (x < mkRat y 1)
  | .vRat x, .vRat y => decide (x < y)
  | .vNegInf, .vInt _ => true
  | .vNegInf, .vRat _ => true
  | .vNegInf, .vInf => true
  | .vNegInf, .vNaN => true
  | .vInt _, .vInf => true
  | .vRat _, .vInf => true
  | .vInt _, .vNaN => true
  | .vRat _, .vNaN => true
  | .vInf, .vNaN => true
  | _, _ => false

/-- The `BMI` column of a table, row by row. -/
def bmiList (t : Table) : List Val :=
  t.rows.map (fun r => (rowGet t.header r "BMI").getD .vNull)

/-- Row `j` goes before row `i` in the descending stable order realised
by `rank(method="ordinal", descending=True)`: a strictly larger value,
or the same value occurring earlier. -/
def rankPrec (bs : List Val) (j i : Nat) : Bool :=
  valLt (bs.getD i .vNull) (bs.getD j .vNull) ||
  (decide (bs.getD j .vNull = bs.getD i .vNull) && decide (j < i))

/-- Ordinal descending rank (1-based) of row `i`: one more than the
number of rows preceding it in the descending stable order. -/
def ordRank (bs : List Val) (i : Nat) : Nat :=
  1 + ((List.range bs.length).filter (fun j => rankPrec bs j i)).length

/-- Replace the cell of the first column called `name` in a row. -/
def setColVal : List String → List Val → String → Val → List Val
  | [], r, _, _ => r
  | _ :: _, [], _, _ => []
  | c :: h, x :: r, name, v =>
    if c = name then v :: r else x :: setColVal h r name v

/-- `with_columns(name=vals)`: replace the column in place when the name
already exists, otherwise append it on the right. -/
def withColumn (t : Table) (name : String) (vals : List Val) : Table :=
  if t.header.contains name then
    ⟨t.header, t.rows.zipWith (fun r v => setColVal t.header r name v) vals⟩
  else
    ⟨t.header ++ [name], t.rows.zipWith (fun r v => r ++ [v]) vals⟩

/-- `ranked_bmi_table`: `with_columns(BMI_RANK=pl.col("BMI").rank(
method="ordinal", descending=True))` (assets.py lines 296-298). -/
def ranked_bmi_table (t : Table) : Except String Table :=
  if t.header.contains "BMI" then
    .ok (withColumn t "BMI_RANK"
      ((List.range t.rows.length).map (fun i => .vInt (ordRank (bmiList t) i))))
  else .error "column not found: BMI"

/-- `aggregated_table`: the filtered table joined with the four derived
tables on `ID` in sequence (assets.py lines 331-336). -/
def aggregated_table (t tc bs eh rb : Table) : Except String Table := do
  let a ← t.join tc "ID"
  let b ← a.join bs "ID"
  let c ← b.join eh "ID"
  c.join rb "ID"

/-- Polars column data types that can reach the sink's type mapping, as
schema instances: the parametric dtypes (`Datetime`, `Duration`, `List`,
`Decimal`) carry their parameters; `otherD` covers every other dtype not
keyed in the source's map. -/
inductive PlDType where
  | int64 | int32 | uint32 | uint64
  | float64 | float32
  | boolean | utf8
  | date
  | datetime (timeUnit : String) (timeZone : Option String)
  | time
  | duration (timeUnit : String)
  | object
  | listT (inner : String)
  | decimal (precision : Option Nat) (scale : Nat)
  | otherD (name : String)
deriving DecidableEq, Repr

/-- Keys of the Python `dtype_map` dict (assets.py lines 358-376): the
bare class keys plus the two Decimal instances written in the source. -/
inductive DTypeKey where
  | kInt64 | kInt32 | kUInt32 | kUInt64
  | kFloat64 | kFloat32
  | kBoolean | kUtf8
  | kDate | kDatetime | kTime | kDuration
  | kObject | kList
  | kDecimalClass
  | kDecimalInst (precision : Option Nat) (scale : Nat)
deriving DecidableEq, Repr

/-- Dict-lookup equality between a `dtype_map` key and a schema dtype.
Python dict lookup is hash-based: non-parametric polars dtype instances
hash like their bare class and so hit the class keys, while the
parametric dtypes (`Datetime`, `Duration`, `List`, `Decimal`) hash
together with their parameters, so their instances miss the bare class
keys (`kDatetime`, `kDuration`, `kList`, `kDecimalClass`) and hit only
keys that are equal instances. -/
def dtypeKeyMatches (k : DTypeKey) (d : PlDType) : Bool :=
  match k, d with
  | .kInt64, .int64 => true
  | .kInt32, .int32 => true
  | .kUInt32, .uint32 => true
  | .kUInt64, .uint64 => true
  | .kFloat64, .float64 => true
  | .kFloat32, .float32 => true
  | .kBoolean, .boolean => true
  | .kUtf8, .utf8 => true
  | .kDate, .date => true
  | .kTime, .time => true
  | .kObject, .object => true
  | .kDecimalInst p s, .decimal q u => decide (p = q) && decide (s = u)
  | _, _ => false

/-- The `dtype_map` of `pokemon_table` (assets.py lines 358-376). -/
def dtype_map : List (DTypeKey × String) :=
  [(.kInt64, "INTEGER"), (.kInt32, "INTEGER"),
   (.kUInt32, "INTEGER"), (.kUInt64, "INTEGER"),
   (.kFloat64, "FLOAT"), (.kFloat32, "FLOAT"),
   (.kBoolean, "BOOLEAN"), (.kUtf8, "VARCHAR"),
   (.kDate, "DATE"), (.kDatetime, "TIMESTAMP"),
   (.kTime, "TIME"), (.kDuration, "INTERVAL"),
   (.kObject, "VARIANT"), (.kList, "ARRAY"),
   (.kDecimalClass, "DECIMAL"),
   (.kDecimalInst none 1, "DECIMAL"), (.kDecimalInst none 2, "DECIMAL")]

/-- `dtype_map.get(dtype, "VARIANT")` (assets.py line 379). -/
def dtypeMapGet (d : PlDType) : String :=
  ((dtype_map.find? (fun p => dtypeKeyMatches p.1 d)).map Prod.snd).getD "VARIANT"

/-- The column clauses of the generated CREATE TABLE statement
(assets.py lines 378-381). -/
def columnsSql (schema : List (String × PlDType)) : List String :=
  schema.map (fun p => "\"" ++ p.1 ++ "\" " ++ dtypeMapGet p.2)

/-- The ID column of a table as read row by row (join perspective). -/
def idList (t : Table) : List (Option Val) :=
  t.rows.map (fun r => rowGet t.header r "ID")

/-- A usable join key: present and non-null (null keys never match in a
polars join). -/
def idOk : Option Val → Bool
  | some v => !v.isNullV
  | none => false

/-! Concrete tables used to instantiate the theorems below. -/

/-- Egg-steps sample: 250, 500 and 501 steps. -/
def eggT : Table :=
  ⟨["ID", "EGG_STEPS"],
   [[.vInt 1, .vInt 250], [.vInt 2, .vInt 500], [.vInt 3, .vInt 501]]⟩

/-- Egg-steps sample beyond the 53-bit significand:
`100 * 2 ^ 47 + 1 = 14073748835532801`. -/
def bigEggT : Table :=
  ⟨["ID", "EGG_STEPS"], [[.vInt 1, .vInt 14073748835532801]]⟩

/-- Type-1 sample: fire, fire, water. -/
def typeT : Table :=
  ⟨["ID", "TYPE_1"],
   [[.vInt 1, .vStr "fire"], [.vInt 2, .vStr "fire"], [.vInt 3, .vStr "water"]]⟩

/-- Rename sample with all four legacy column names. -/
def renT : Table :=
  ⟨["ID", "Type 1", "Type 2", "Sp. Attack", "Sp. Defense"],
   [[.vInt 1, .vStr "grass", .vStr "poison", .vInt 65, .vInt 65]]⟩

/-- Generation sample: generations 1, 1, 2, 3. -/
def genT : Table :=
  ⟨["ID", "GEN"],
   [[.vInt 1, .vInt 1], [.vInt 2, .vInt 1], [.vInt 3, .vInt 2], [.vInt 4, .vInt 3]]⟩

/-- BMI sample: 10.0, 25.0, 25.0, 5.0. -/
def bmiT : Table :=
  ⟨["ID", "BMI"],
   [[.vInt 1, .vRat 10], [.vInt 2, .vRat 25], [.vInt 3, .vRat 25], [.vInt 4, .vRat 5]]⟩

/-- Base table sample: IDs 1, 2, 3. -/
def baseT : Table :=
  ⟨["ID", "Type 1", "GEN"],
   [[.vInt 1, .vStr "fire", .vInt 1], [.vInt 2, .vStr "water", .vInt 1],
    [.vInt 3, .vStr "grass", .vInt 2]]⟩

/-- Battle table sample: IDs 1, 2, 3 (out of order). -/
def battleT : Table :=
  ⟨["ID", "ATTACK"],
   [[.vInt 2, .vInt 48], [.vInt 1, .vInt 52], [.vInt 3, .vInt 49]]⟩

/-- Reproduction table sample missing ID 3. -/
def reproT : Table :=
  ⟨["ID", "EGG_STEPS"], [[.vInt 1, .vInt 5120], [.vInt 2, .vInt 5120]]⟩

/-- A battle table clashing with `baseT` on the non-key column `GEN`. -/
def clashT : Table :=
  ⟨["ID", "GEN"], [[.vInt 1, .vInt 7], [.vInt 2, .vInt 7], [.vInt 3, .vInt 7]]⟩

/-- A table without an `ID` column. -/
def noIdT : Table := ⟨["NAME"], [[.vStr "missingno"]]⟩

/-- Weight/height sample with a zero height in the first row. -/
def hwT : Table :=
  ⟨["ID", "WEIGHT_KILOGRAMS", "HEIGHT_METERS"],
   [[.vInt 1, .vInt 60, .vInt 0], [.vInt 2, .vInt 50, .vRat 2]]⟩

/-- A filtered-table sample with all the columns the four derived
tables read. -/
def fullT : Table :=
  ⟨["ID", "TYPE_1", "GEN", "HP", "ATTACK", "DEFENSE", "SP_ATTACK",
    "SP_DEFENSE", "SPEED", "EGG_STEPS", "WEIGHT_KILOGRAMS", "HEIGHT_METERS"],
   [[.vInt 1, .vStr "grass", .vInt 1, .vInt 45, .vInt 49, .vInt 49,
     .vInt 65, .vInt 65, .vInt 45, .vInt 5120, .vInt 69, .vRat 1],
    [.vInt 4, .vStr "fire", .vInt 1, .vInt 39, .vInt 52, .vInt 43,
     .vInt 60, .vInt 50, .vInt 65, .vInt 5120, .vInt 85, .vRat 1]]⟩

/-- Type counts derived from `fullT`. -/
def tcF : Table :=
  ⟨["ID", "TYPE_COUNT"], [[.vInt 1, .vInt 1], [.vInt 4, .vInt 1]]⟩

/-- Base stats derived from `fullT`. -/
def bsF : Table :=
  ⟨["ID", "BASE_STATS"], [[.vInt 1, .vInt 318], [.vInt 4, .vInt 309]]⟩

/-- Egg hatch times derived from `fullT`. -/
def ehF : Table :=
  ⟨["ID", "EGG_HATCH_TIME"], [[.vInt 1, .vInt 52], [.vInt 4, .vInt 52]]⟩

/-- BMI values derived from `fullT`. -/
def btF : Table :=
  ⟨["ID", "BMI"], [[.vInt 1, .vRat 69], [.vInt 4, .vRat 85]]⟩

/-- Ranked BMI values derived from `fullT`. -/
def rbF : Table :=
  ⟨["ID", "BMI", "BMI_RANK"],
   [[.vInt 1, .vRat 69, .vInt 2], [.vInt 4, .vRat 85, .vInt 1]]⟩

/-- The aggregated table built from `fullT` and its derived tables. -/
def aggF : Table :=
  ⟨["ID", "TYPE_1", "GEN", "HP", "ATTACK", "DEFENSE", "SP_ATTACK",
    "SP_DEFENSE", "SPEED", "EGG_STEPS", "WEIGHT_KILOGRAMS", "HEIGHT_METERS",
    "TYPE_COUNT", "BASE_STATS", "EGG_HATCH_TIME", "BMI", "BMI_RANK"],
   [[.vInt 1, .vStr "grass", .vInt 1, .vInt 45, .vInt 49, .vInt 49, .vInt 65,
     .vInt 65, .vInt 45, .vInt 5120, .vInt 69, .vRat 1,
     .vInt 1, .vInt 318, .vInt 52, .vRat 69, .vInt 2],
    [.vInt 4, .vStr "fire", .vInt 1, .vInt 39, .vInt 52, .vInt 43, .vInt 60,
     .vInt 50, .vInt 65, .vInt 5120, .vInt 85, .vRat 1,
     .vInt 1, .vInt 309, .vInt 52, .vRat 85, .vInt 1]]⟩

/-! Supporting lemmas about the row/column accessors. -/

/-- A lookup that succeeds on the left half of a row succeeds unchanged
on the extended row. -/
theorem rowGet_append_some {h1 : List String} {r1 : List Val} {k : String} {v : Val}
    (h2 : List String) (r2 : List Val) (hv : rowGet h1 r1 k = some v) :
    rowGet (h1 ++ h2) (r1 ++ r2) k = some v := by
  induction h1 generalizing r1 with
  | nil => simp [rowGet] at hv
  | cons c h ih =>
    cases r1 with
    | nil => simp [rowGet] at hv
    | cons x r =>
      by_cases hc : c = k
      · simpa [rowGet, hc] using hv
      · simp only [rowGet, hc, if_false, List.cons_append] at hv ⊢
        exact ih hv

/-- A lookup for a column absent from the header returns nothing. -/
theorem rowGet_eq_none_of_not_mem {h : List String} {k : String}
    (hk : k ∉ h) : ∀ r : List Val, rowGet h r k = none := by
  induction h with
  | nil => intro r; cases r <;> rfl
  | cons c t ih =>
    intro r
    cases r with
    | nil => rfl
    | cons x xs =>
      have hck : c ≠ k := fun hc => hk (hc ▸ List.mem_cons_self c t)
      simp only [rowGet, hck, if_false]
      exact ih (fun hm => hk (List.mem_cons_of_mem c hm)) xs

/-- A lookup that fails on a full-width left half of a row falls through
to the right half. -/
theorem rowGet_append_none {h1 : List String} {r1 : List Val} {k : String}
    (h2 : List String) (r2 : List Val) (hlen : r1.length = h1.length)
    (hn : rowGet h1 r1 k = none) :
    rowGet (h1 ++ h2) (r1 ++ r2) k = rowGet h2 r2 k := by
  induction h1 generalizing r1 with
  | nil =>
    cases r1 with
    | nil => simp
    | cons x r => simp at hlen
  | cons c h ih =>
    cases r1 with
    | nil => simp at hlen
    | cons x r =>
      by_cases hc : c = k
      · simp [rowGet, hc] at hn
      · simp only [rowGet, hc, if_false, List.cons_append] at hn ⊢
        exact ih (by simpa using hlen) hn

/-- A full-width row has a value under every header column. -/
theorem rowGet_isSome_of_mem {h : List String} {r : List Val} {k : String}
    (hk : k ∈ h) (hlen : r.length = h.length) :
    (rowGet h r k).isSome = true := by
  induction h generalizing r with
  | nil => simp at hk
  | cons c t ih =>
    cases r with
    | nil => simp at hlen
    | cons x xs =>
      by_cases hc : c = k
      · simp [rowGet, hc]
      · have : k ∈ t := by
          rcases List.mem_cons.mp hk with h' | h'
          · exact absurd h'.symm hc
          · exact h'
        simp only [rowGet, hc, if_false]
        exact ih this (by simpa using hlen)

/-- Width of the key-dropped projection of a full row. -/
theorem dropKey_length {h : List String} {r : List Val} {k : String}
    (hlen : r.length = h.length) :
    (dropKey h r k).length = (h.filter (fun c => c ≠ k)).length := by
  induction h generalizing r with
  | nil => cases r <;> simp [dropKey]
  | cons c t ih =>
    cases r with
    | nil => simp at hlen
    | cons x xs =>
      by_cases hc : c = k
      · simp [dropKey, List.filter, hc, ih (by simpa using hlen)]
      · simp [dropKey, List.filter, hc, ih (by simpa using hlen)]

/-- Pairing a list with its image under a map pairs each element with
its own image. -/
theorem zip_map_self {α β : Type} (f : α → β) (l : List α) :
    List.zip l (l.map f) = l.map (fun a => (a, f a)) := by
  induction l with
  | nil => rfl
  | cons x xs ih => simpa using ih

/-- The numerator/denominator division agrees with the field division. -/
theorem divQ_eq (x y : ℚ) : divQ x y = x / y := by
  unfold divQ
  conv_rhs => rw [← Rat.num_divInt_den x, ← Rat.num_divInt_den y, Rat.divInt_div_divInt]

/-- The numerator/denominator square agrees with the monoid square. -/
theorem sqQ_eq (q : ℚ) : sqQ q = q ^ 2 := by
  unfold sqQ
  rw [pow_two]
  conv_rhs => rw [← Rat.num_divInt_den q, Rat.divInt_mul_divInt']

/-- The numerator/denominator addition agrees with the field addition. -/
theorem addQ_eq (x y : ℚ) : addQ x y = x + y := by
  unfold addQ
  conv_rhs => rw [← Rat.num_divInt_den x, ← Rat.num_divInt_den y]
  rw [Rat.divInt_add_divInt _ _ (by exact_mod_cast x.den_nz) (by exact_mod_cast y.den_nz)]

/-- The numerator/denominator ceiling agrees with Mathlib's ceiling. -/
theorem ceilQ_eq (q : ℚ) : ceilQ q = ⌈q⌉ := by
  have h1 : (⌈q⌉ : Int) = -⌊-q⌋ := by rw [Int.floor_neg]; ring
  have h2 : ⌊-q⌋ = Int.ediv (-q.num) (q.den : Int) := by
    rw [Rat.floor_def, Rat.neg_num, Rat.neg_den]
    rfl
  rw [h1, h2, ceilQ]

/-- The numerator/denominator multiplication agrees with the field
multiplication. -/
theorem mulQ_eq (x y : ℚ) : mulQ x y = x * y := by
  unfold mulQ
  conv_rhs => rw [← Rat.num_divInt_den x, ← Rat.num_divInt_den y, Rat.divInt_mul_divInt']

/-- The numerator negation agrees with the field negation. -/
theorem negQ_eq (q : ℚ) : negQ q = -q := by
  unfold negQ
  rw [← Rat.neg_divInt, Rat.num_divInt_den]

/-- The numerator/denominator subtraction agrees with the field
subtraction. -/
theorem subQ_eq (x y : ℚ) : subQ x y = x - y := by
  unfold subQ
  rw [addQ_eq, negQ_eq, sub_eq_add_neg]

/-- The numerator/denominator floor agrees with Mathlib's floor. -/
theorem floorQ_eq (q : ℚ) : floorQ q = ⌊q⌋ := by
  rw [Rat.floor_def]
  rfl

/-- `mkRat 1 2` is the rational one half. -/
theorem mkRat_half : mkRat 1 2 = (1 / 2 : ℚ) := by
  rw [Rat.mkRat_eq_divInt, Rat.divInt_eq_div]
  norm_num

/-- With fuel above the bit length, `log2F` brackets its argument
between consecutive powers of two. -/
theorem log2F_bounds (fuel : Nat) : ∀ n : Nat, 1 ≤ n → n < 2 ^ fuel →
    2 ^ log2F fuel n ≤ n ∧ n < 2 ^ (log2F fuel n + 1) := by
  induction fuel with
  | zero =>
    intro n h1 h2
    simp at h2
    omega
  | succ fuel ih =>
    intro n h1 h2
    by_cases h : 2 ≤ n
    · have hdiv1 : 1 ≤ n / 2 := by omega
      have hdiv2 : n / 2 < 2 ^ fuel := by
        have hp : 2 ^ (fuel + 1) = 2 * 2 ^ fuel := by ring
        omega
      obtain ⟨ha, hb⟩ := ih (n / 2) hdiv1 hdiv2
      have hlf : log2F (fuel + 1) n = log2F fuel (n / 2) + 1 := by
        simp [log2F, h]
      rw [hlf]
      have hp1 : 2 ^ (log2F fuel (n / 2) + 1) = 2 * 2 ^ log2F fuel (n / 2) := by ring
      have hp2 : 2 ^ (log2F fuel (n / 2) + 1 + 1) =
          2 * 2 ^ (log2F fuel (n / 2) + 1) := by ring
      omega
    · have hn : n = 1 := by omega
      subst hn
      have hlf : log2F (fuel + 1) 1 = 0 := by simp [log2F]
      rw [hlf]
      norm_num

/-- `pow2Q` agrees with the integer power of two in `ℚ`. -/
theorem pow2Q_eq (e : Int) : pow2Q e = (2:ℚ) ^ e := by
  unfold pow2Q
  split
  · next h =>
    rw [Rat.mkRat_one]
    rw [show ((2 ^ e.toNat : Int) : ℚ) = (2:ℚ) ^ e.toNat from by push_cast; ring]
    rw [← zpow_natCast (2:ℚ) e.toNat, Int.toNat_of_nonneg h]
  · next h =>
    have hk : ((-e).toNat : Int) = -e := Int.toNat_of_nonneg (by omega)
    rw [Rat.mkRat_eq_divInt, Rat.divInt_eq_div]
    push_cast
    rw [show ((2:ℚ) ^ (-e).toNat = (2:ℚ) ^ ((-e).toNat : Int)) from
      (zpow_natCast _ _).symm, hk]
    rw [one_div, ← zpow_neg, neg_neg]

/-- `qlog2` of a positive rational with numerator and denominator in the
fuel range brackets it between consecutive powers of two. -/
theorem qlog2_spec (q : ℚ) (hq : 0 < q)
    (hnum : q.num.natAbs < 2 ^ 64) (hden : q.den < 2 ^ 64) :
    (2:ℚ) ^ qlog2 q ≤ q ∧ q < (2:ℚ) ^ (qlog2 q + 1) := by
  have hnumpos : 0 < q.num := Rat.num_pos.mpr hq
  have hnum1 : 1 ≤ q.num.natAbs := by omega
  have hden1 : 1 ≤ q.den := q.pos
  obtain ⟨ha1, ha2⟩ := log2F_bounds 64 q.num.natAbs hnum1 hnum
  obtain ⟨hb1, hb2⟩ := log2F_bounds 64 q.den hden1 hden
  set ka := log2F 64 q.num.natAbs with hka
  set kb := log2F 64 q.den with hkb
  have hdenQ : (0:ℚ) < (q.den : ℚ) := by exact_mod_cast q.pos
  have hqden : q * (q.den : ℚ) = (q.num : ℚ) := by
    nth_rewrite 1 [← Rat.num_div_den q]
    rw [div_mul_cancel₀ _ (ne_of_gt hdenQ)]
  have hnatAbs : ((q.num.natAbs : ℚ)) = (q.num : ℚ) := by
    rw [Int.cast_natAbs]
    exact_mod_cast abs_of_pos hnumpos
  have hA1 : (2:ℚ) ^ ((ka : Int)) ≤ (q.num.natAbs : ℚ) := by
    rw [zpow_natCast]
    exact_mod_cast ha1
  have hA2 : (q.num.natAbs : ℚ) < (2:ℚ) ^ ((ka : Int) + 1) := by
    rw [show ((ka : Int) + 1) = ((ka + 1 : Nat) : Int) from by push_cast; ring,
      zpow_natCast]
    exact_mod_cast ha2
  have hB1 : (2:ℚ) ^ ((kb : Int)) ≤ (q.den : ℚ) := by
    rw [zpow_natCast]
    exact_mod_cast hb1
  have hB2 : (q.den : ℚ) < (2:ℚ) ^ ((kb : Int) + 1) := by
    rw [show ((kb : Int) + 1) = ((kb + 1 : Nat) : Int) from by push_cast; ring,
      zpow_natCast]
    exact_mod_cast hb2
  have hupper : q < (2:ℚ) ^ ((ka : Int) - kb + 1) := by
    have h1 : q * (2:ℚ) ^ ((kb : Int)) ≤ q * (q.den : ℚ) :=
      mul_le_mul_of_nonneg_left hB1 hq.le
    have h2 : q * (2:ℚ) ^ ((kb : Int)) < (2:ℚ) ^ ((ka : Int) + 1) := by
      rw [hqden] at h1
      calc q * (2:ℚ) ^ ((kb : Int)) ≤ (q.num : ℚ) := h1
        _ = (q.num.natAbs : ℚ) := hnatAbs.symm
        _ < (2:ℚ) ^ ((ka : Int) + 1) := hA2
    have hp : (0:ℚ) < (2:ℚ) ^ ((kb : Int)) := by positivity
    have hsplit : (2:ℚ) ^ ((ka : Int) - kb + 1) * (2:ℚ) ^ ((kb : Int)) =
        (2:ℚ) ^ ((ka : Int) + 1) := by
      rw [← zpow_add₀ (by norm_num : (2:ℚ) ≠ 0)]
      congr 1
      ring
    refine lt_of_mul_lt_mul_right ?_ hp.le
    rw [hsplit]
    exact h2
  have hlower : (2:ℚ) ^ ((ka : Int) - kb - 1) ≤ q := by
    have h1 : q * (q.den : ℚ) < q * (2:ℚ) ^ ((kb : Int) + 1) :=
      mul_lt_mul_of_pos_left hB2 hq
    have h2 : (2:ℚ) ^ ((ka : Int)) < q * (2:ℚ) ^ ((kb : Int) + 1) := by
      calc (2:ℚ) ^ ((ka : Int)) ≤ (q.num.natAbs : ℚ) := hA1
        _ = q * (q.den : ℚ) := by rw [hnatAbs, ← hqden]
        _ < q * (2:ℚ) ^ ((kb : Int) + 1) := h1
    have hp : (0:ℚ) < (2:ℚ) ^ ((kb : Int) + 1) := by positivity
    have hsplit : (2:ℚ) ^ ((ka : Int) - kb - 1) * (2:ℚ) ^ ((kb : Int) + 1) =
        (2:ℚ) ^ ((ka : Int)) := by
      rw [← zpow_add₀ (by norm_num : (2:ℚ) ≠ 0)]
      congr 1
      ring
    refine le_of_mul_le_mul_right ?_ hp
    rw [hsplit]
    exact h2.le
  have hmain : ∀ e0 : Int, q < (2:ℚ) ^ (e0 + 1) → (2:ℚ) ^ (e0 - 1) ≤ q →
      (2:ℚ) ^ (if pow2Q e0 ≤ q then e0 else e0 - 1) ≤ q ∧
      q < (2:ℚ) ^ ((if pow2Q e0 ≤ q then e0 else e0 - 1) + 1) := by
    intro e0 hu hl
    rw [pow2Q_eq]
    by_cases h : (2:ℚ) ^ e0 ≤ q
    · rw [if_pos h]
      exact ⟨h, hu⟩
    · rw [if_neg h]
      push_neg at h
      refine ⟨hl, ?_⟩
      rw [show e0 - 1 + 1 = e0 from by ring]
      exact h
  unfold qlog2
  rw [← hka, ← hkb]
  exact hmain ((ka : Int) - kb) hupper hlower

/-- An upper bound on the argument gives an upper bound on `qlog2`. -/
theorem qlog2_le (q : ℚ) (hq : 0 < q) (hnum : q.num.natAbs < 2 ^ 64)
    (hden : q.den < 2 ^ 64) (e : Int) (h : q < (2:ℚ) ^ (e + 1)) : qlog2 q ≤ e := by
  by_contra hlt
  push_neg at hlt
  have h1 := (qlog2_spec q hq hnum hden).1
  have h2 : (2:ℚ) ^ (e + 1) ≤ (2:ℚ) ^ qlog2 q :=
    zpow_le_zpow_right₀ (by norm_num) (by omega)
  linarith

/-- `rne` written over Mathlib's floor and field operations. -/
theorem rne_eq_ite (r : ℚ) : rne r =
    if r - (⌊r⌋ : ℚ) < 1 / 2 then ⌊r⌋
    else if 1 / 2 < r - (⌊r⌋ : ℚ) then ⌊r⌋ + 1
    else if ⌊r⌋ % 2 = 0 then ⌊r⌋ else ⌊r⌋ + 1 := by
  unfold rne
  rw [floorQ_eq, subQ_eq, mkRat_half, Rat.mkRat_one]

/-- Round-to-nearest never moves a value by more than one half. -/
theorem rne_bounds (r : ℚ) :
    r - 1 / 2 ≤ (rne r : ℚ) ∧ (rne r : ℚ) ≤ r + 1 / 2 := by
  have hf1 : (⌊r⌋ : ℚ) ≤ r := Int.floor_le r
  have hf2 : r < (⌊r⌋ : ℚ) + 1 := Int.lt_floor_add_one r
  rw [rne_eq_ite]
  by_cases h1 : r - (⌊r⌋ : ℚ) < 1 / 2
  · rw [if_pos h1]
    constructor <;> push_cast <;> linarith
  · rw [if_neg h1]
    push_neg at h1
    by_cases h2 : 1 / 2 < r - (⌊r⌋ : ℚ)
    · rw [if_pos h2]
      constructor <;> push_cast <;> linarith
    · rw [if_neg h2]
      push_neg at h2
      by_cases h3 : ⌊r⌋ % 2 = 0
      · rw [if_pos h3]
        constructor <;> push_cast <;> linarith
      · rw [if_neg h3]
        constructor <;> push_cast <;> linarith

/-- Round-to-nearest fixes the integers. -/
theorem rne_int (m : Int) : rne ((m : ℚ)) = m := by
  rw [rne_eq_ite, Int.floor_intCast]
  rw [if_pos (by norm_num : (m : ℚ) - (m : ℚ) < 1 / 2)]

/-- `roundPos` written over Mathlib's field operations. -/
theorem roundPos_eq (q : ℚ) :
    roundPos q = ((rne (q * (2:ℚ) ^ ((52:Int) - qlog2 q)) : Int) : ℚ) *
      (2:ℚ) ^ (qlog2 q - 52) := by
  unfold roundPos
  rw [mulQ_eq, mulQ_eq, pow2Q_eq, pow2Q_eq, Rat.mkRat_one]

/-- The binary64 rounding of a positive rational moves it by at most a
half ulp of its binade. -/
theorem roundPos_err (q : ℚ) :
    q - (2:ℚ) ^ (qlog2 q - 53) ≤ roundPos q ∧
    roundPos q ≤ q + (2:ℚ) ^ (qlog2 q - 53) := by
  rw [roundPos_eq]
  obtain ⟨hb1, hb2⟩ := rne_bounds (q * (2:ℚ) ^ ((52:Int) - qlog2 q))
  have h2 : (0:ℚ) < (2:ℚ) ^ (qlog2 q - 52) := by positivity
  have hqid : q * (2:ℚ) ^ ((52:Int) - qlog2 q) * (2:ℚ) ^ (qlog2 q - 52) = q := by
    rw [mul_assoc, ← zpow_add₀ (by norm_num : (2:ℚ) ≠ 0)]
    rw [show (52:Int) - qlog2 q + (qlog2 q - 52) = 0 from by ring, zpow_zero, mul_one]
  have hhalf : (1:ℚ) / 2 * (2:ℚ) ^ (qlog2 q - 52) = (2:ℚ) ^ (qlog2 q - 53) := by
    rw [show (qlog2 q - 52 : Int) = qlog2 q - 53 + 1 from by ring,
      zpow_add_one₀ (by norm_num : (2:ℚ) ≠ 0)]
    ring
  constructor
  · have hm := mul_le_mul_of_nonneg_right hb1 h2.le
    rw [sub_mul, hqid, hhalf] at hm
    linarith
  · have hm := mul_le_mul_of_nonneg_right hb2 h2.le
    rw [add_mul, hqid, hhalf] at hm
    linarith

/-- Binary64 rounding is exact on the integers below `2 ^ 53`. -/
theorem roundF64_intCast (n : Int) (h0 : 0 ≤ n) (h : n < 2 ^ 53) :
    roundF64 ((n : ℚ)) = (n : ℚ) := by
  rcases eq_or_lt_of_le h0 with h0e | h0p
  · rw [← h0e]
    norm_num [roundF64]
  · have hq : (0:ℚ) < (n : ℚ) := by exact_mod_cast h0p
    unfold roundF64
    rw [if_pos hq]
    have hnum : ((n : ℚ)).num.natAbs < 2 ^ 64 := by
      rw [Rat.num_intCast]
      omega
    have hden : ((n : ℚ)).den < 2 ^ 64 := by
      rw [Rat.den_intCast]
      norm_num
    have hlt : (n : ℚ) < (2:ℚ) ^ ((52:Int) + 1) := by
      rw [show ((52:Int) + 1) = ((53 : Nat) : Int) from by norm_num, zpow_natCast]
      have hc : ((2:ℚ)) ^ (53 : Nat) = ((2 ^ 53 : Int) : ℚ) := by push_cast; ring
      rw [hc]
      exact_mod_cast h
    rw [roundPos_eq]
    set e := qlog2 ((n : ℚ)) with hedef
    have he : e ≤ 52 := qlog2_le _ hq hnum hden 52 hlt
    have hk : (((52 - e).toNat : Int)) = 52 - e := Int.toNat_of_nonneg (by omega)
    have harg : (n : ℚ) * (2:ℚ) ^ ((52:Int) - e) =
        ((n * 2 ^ (52 - e).toNat : Int) : ℚ) := by
      push_cast
      rw [← zpow_natCast (2:ℚ) (52 - e).toNat, hk]
    rw [harg, rne_int]
    push_cast
    rw [← zpow_natCast (2:ℚ) (52 - e).toNat, hk, mul_assoc,
      ← zpow_add₀ (by norm_num : (2:ℚ) ≠ 0)]
    rw [show (52:Int) - e + (e - 52) = 0 from by ring, zpow_zero, mul_one]

/-- Division of two finite nonzero floats by the exact-rational core. -/
theorem valDiv_vRat_vRat (x y : ℚ) (hy : y ≠ 0) :
    valDiv (.vRat x) (.vRat y) = .vRat (x / y) := by
  simp [valDiv, toQ, hy, divQ_eq]

/-- The ceiling survives the binary64 division by 100 for dividends
below `2 ^ 53`: the quotient sits below `2 ^ 47`, so the rounding error
is at most `2 ^ (-7) < 1 / 100` and cannot cross an integer. -/
theorem ceil_roundF64_div100 (n : Int) (h0 : 0 ≤ n) (h53 : n < 2 ^ 53) :
    ⌈roundF64 ((n : ℚ) / 100)⌉ = ⌈(n : ℚ) / 100⌉ := by
  rcases eq_or_lt_of_le h0 with h0e | h0p
  · rw [← h0e]
    norm_num [roundF64]
  · set x : ℚ := (n : ℚ) / 100 with hxdef
    have hn : (0:ℚ) < (n : ℚ) := by exact_mod_cast h0p
    have hx0 : 0 < x := div_pos hn (by norm_num)
    have hx_divInt : x = Rat.divInt n 100 := by
      rw [hxdef, Rat.divInt_eq_div]
      norm_num
    set k : Int := n / 100 with hkdef
    set r : Int := n % 100 with hrdef
    have hnkr : n = 100 * k + r := by omega
    have hr0 : 0 ≤ r := by omega
    have hr100 : r < 100 := by omega
    by_cases hr : r = 0
    · have hxk : x = (k : ℚ) := by
        rw [hxdef, show (n : ℚ) = 100 * (k : ℚ) from by exact_mod_cast (by omega : n = 100 * k)]
        rw [mul_div_cancel_left₀ _ (by norm_num : (100:ℚ) ≠ 0)]
      rw [hxk, roundF64_intCast k (by omega) (by omega)]
    · have hr1 : 1 ≤ r := by omega
      have hxval : x = (k : ℚ) + (r : ℚ) / 100 := by
        rw [hxdef, show (n : ℚ) = 100 * (k : ℚ) + (r : ℚ) from by exact_mod_cast hnkr]
        ring
      have hrQ1 : (1:ℚ) ≤ (r : ℚ) := by exact_mod_cast hr1
      have hrQ99 : (r : ℚ) ≤ 99 := by exact_mod_cast (by omega : r ≤ 99)
      have hxlo : (k : ℚ) + 1 / 100 ≤ x := by
        rw [hxval]
        linarith
      have hxhi : x ≤ (k : ℚ) + 99 / 100 := by
        rw [hxval]
        linarith
      have hden : x.den < 2 ^ 64 := by
        have hdvd : ((x.den : Int)) ∣ 100 := by
          rw [hx_divInt]
          exact Rat.den_dvd n 100
        have hle : (x.den : Int) ≤ 100 := Int.le_of_dvd (by norm_num) hdvd
        omega
      have hnum : x.num.natAbs < 2 ^ 64 := by
        have hdvd : x.num ∣ n := by
          rw [hx_divInt]
          exact Rat.num_dvd n (by norm_num)
        have h1 : x.num.natAbs ∣ n.natAbs := Int.natAbs_dvd_natAbs.mpr hdvd
        have h2 : x.num.natAbs ≤ n.natAbs := Nat.le_of_dvd (by omega) h1
        omega
      have hk47 : (k : ℚ) + 1 ≤ ((140737488355328 : Int) : ℚ) := by
        exact_mod_cast (by omega : k + 1 ≤ 140737488355328)
      have hxlt : x < (2:ℚ) ^ ((46:Int) + 1) := by
        rw [show ((46:Int) + 1) = ((47 : Nat) : Int) from by norm_num, zpow_natCast]
        have hc : ((2:ℚ)) ^ (47 : Nat) = ((140737488355328 : Int) : ℚ) := by norm_num
        rw [hc]
        linarith
      have he46 : qlog2 x ≤ 46 := qlog2_le x hx0 hnum hden 46 hxlt
      have herr : (2:ℚ) ^ (qlog2 x - 53) ≤ 1 / 128 := by
        have h2 : ((1:ℚ) / 128) = (2:ℚ) ^ ((-7 : Int)) := by
          rw [show ((-7 : Int)) = -((7 : Nat) : Int) from by norm_num, zpow_neg,
            zpow_natCast]
          norm_num
        rw [h2]
        exact zpow_le_zpow_right₀ (by norm_num) (by omega)
      obtain ⟨he1, he2⟩ := roundPos_err x
      have hR : roundF64 x = roundPos x := by
        unfold roundF64
        rw [if_pos hx0]
      rw [hR]
      have hd_lo : (k : ℚ) < roundPos x := by linarith
      have hd_hi : roundPos x ≤ (k : ℚ) + 1 := by linarith
      have hceil_d : ⌈roundPos x⌉ = k + 1 := by
        rw [Int.ceil_eq_iff]
        constructor
        · push_cast
          linarith
        · push_cast
          linarith
      have hceil_x : ⌈x⌉ = k + 1 := by
        rw [Int.ceil_eq_iff]
        constructor
        · push_cast
          linarith
        · push_cast
          linarith
      rw [hceil_d, hceil_x]

/-- What the hash-based dict lookup returns for a decimal instance:
DECIMAL only at the two exact instance keys written in the source,
VARIANT everywhere else. -/
theorem dtypeMapGet_decimal (p : Option Nat) (s : Nat) :
    dtypeMapGet (.decimal p s) =
      if p = none ∧ (s = 1 ∨ s = 2) then "DECIMAL" else "VARIANT" := by
  by_cases hp : p = none
  · subst hp
    by_cases h1 : s = 1
    · subst h1
      simp [dtypeMapGet, dtype_map, dtypeKeyMatches, List.find?]
    · by_cases h2 : s = 2
      · subst h2
        simp [dtypeMapGet, dtype_map, dtypeKeyMatches, List.find?]
      · simp [dtypeMapGet, dtype_map, dtypeKeyMatches, List.find?,
          h1, h2, Ne.symm h1, Ne.symm h2]
  · simp [dtypeMapGet, dtype_map, dtypeKeyMatches, List.find?, hp, Ne.symm hp]

/-- Claim C9 counterexample: the ordinary decimal dtype `Decimal(38, 2)`
resolves to the fallback VARIANT, not to DECIMAL — the bare `pl.Decimal`
class key is never hit by a hash-based dict lookup of a parametrised
instance (which is why the source also lists the two instance keys
`Decimal(None, 1)` and `Decimal(None, 2)`). -/
theorem C9_counterexample :
    dtypeMapGet (.decimal (some 38) 2) = "VARIANT" ∧
    dtypeMapGet (.decimal (some 38) 2) ≠ "DECIMAL" := by
  constructor
  · rfl
  · decide

/-- Claim C9 (amended): the mapper is total and deterministic — every
dtype resolves to exactly one keyword and unrecognized dtypes resolve to
the fallback VARIANT without raising — but a decimal dtype maps to
DECIMAL only when it is exactly one of the two instance keys
`Decimal(None, 1)` or `Decimal(None, 2)`; every other decimal instance
falls back to VARIANT because polars parametric dtypes hash with their
parameters and so miss the bare `pl.Decimal` class key. -/
theorem C9_type_mapping :
    (∀ p : Option Nat, ∀ s : Nat, ¬(p = none ∧ (s = 1 ∨ s = 2)) →
      dtypeMapGet (.decimal p s) = "VARIANT") ∧
    dtypeMapGet (.decimal none 1) = "DECIMAL" ∧
    dtypeMapGet (.decimal none 2) = "DECIMAL" ∧
    (∀ name : String, dtypeMapGet (.otherD name) = "VARIANT") ∧
    (∀ d : PlDType, dtypeMapGet d ∈
      ["INTEGER", "FLOAT", "BOOLEAN", "VARCHAR", "DATE", "TIMESTAMP",
       "TIME", "INTERVAL", "VARIANT", "ARRAY", "DECIMAL"]) := by
  refine ⟨?_, by rfl, by rfl, ?_, ?_⟩
  · intro p s h
    rw [dtypeMapGet_decimal, if_neg h]
  · intro name
    simp [dtypeMapGet, dtype_map, dtypeKeyMatches, List.find?]
  · intro d
    cases d <;>
      first
        | (rw [dtypeMapGet_decimal]; split_ifs <;> simp)
        | simp [dtypeMapGet, dtype_map, dtypeKeyMatches, List.find?]

/-- Claim C9 (amended) witness: `Decimal(10, 3)` falls back to VARIANT. -/
theorem C9_type_mapping_witness :
    dtypeMapGet (.decimal (some 10) 3) = "VARIANT" :=
  C9_type_mapping.1 (some 10) 3 (by decide)

/-- Claim C4 (amended): for every row whose `EGG_STEPS` is a
non-negative integer below `2 ^ 53`, the egg-hatch-time step emits an
integer `EGG_HATCH_TIME` equal to the ceiling of `EGG_STEPS / 100`
(characterised arithmetically: the unique `q` with `n ≤ 100q < n + 100`),
one output row per input row; beyond `2 ^ 53` the binary64 division can
round the quotient below the exact ceiling (see the counterexample). -/
theorem C4_egg_hatch_time (t out : Table)
    (hok : calculated_egg_hatch_time_table t = .ok out) :
    out.rows.length = t.rows.length ∧
    ∀ rp ∈ List.zip t.rows out.rows, ∀ n : Int, 0 ≤ n → n < 2 ^ 53 →
      rowGet t.header rp.1 "EGG_STEPS" = some (.vInt n) →
      ∃ q : Int, rowGet out.header rp.2 "EGG_HATCH_TIME" = some (.vInt q) ∧
        n ≤ 100 * q ∧ 100 * q < n + 100 := by
  unfold calculated_egg_hatch_time_table at hok
  split at hok
  · split at hok
    · rw [Except.ok.injEq] at hok
      subst hok
      refine ⟨by simp, ?_⟩
      intro rp hrp n hn h53 hcell
      rw [zip_map_self] at hrp
      obtain ⟨r, hr, rfl⟩ := List.mem_map.mp hrp
      have hcell' : rowGet t.header r "EGG_STEPS" = some (.vInt n) := hcell
      have hcastn : castFloat64 (Val.vInt n) = .vRat ((n : ℚ)) := by
        simp only [castFloat64, Rat.mkRat_one]
        rw [roundF64_intCast n hn h53]
      have hcast100 : castFloat64 (Val.vInt 100) = .vRat ((100 : ℚ)) := by
        simp only [castFloat64, Rat.mkRat_one]
        rw [show (((100 : Int)) : ℚ) = ((100 : ℚ)) from by norm_num]
        rw [show roundF64 ((100 : ℚ)) = (((100 : Int)) : ℚ) from by
          rw [show ((100 : ℚ)) = (((100 : Int)) : ℚ) from by norm_num]
          exact roundF64_intCast 100 (by norm_num) (by norm_num)]
        norm_num
      have hdiv : f64Div (Val.vInt n) (Val.vInt 100) =
          .vRat (roundF64 ((n : ℚ) / 100)) := by
        rw [f64Div, hcastn, hcast100, valDiv_vRat_vRat (n : ℚ) 100 (by norm_num)]
        rfl
      refine ⟨⌈(n : ℚ) / 100⌉, ?_, ?_, ?_⟩
      · simp only [rowGet, hcell', Option.getD_some]
        rw [if_pos trivial, hdiv]
        simp only [ceilV, castInt64, Rat.mkRat_one, Rat.num_intCast,
          Rat.den_intCast, Nat.cast_one, Int.tdiv_one, ceilQ_eq]
        rw [ceil_roundF64_div100 n hn h53]
        rw [if_neg (by decide : ¬ ("ID" : String) = "EGG_HATCH_TIME")]
      · have h1 : ((n : ℚ)) / 100 ≤ (⌈(n : ℚ) / 100⌉ : ℚ) := Int.le_ceil _
        have h2 : (n : ℚ) ≤ (⌈(n : ℚ) / 100⌉ : ℚ) * 100 :=
          (div_le_iff₀ (by norm_num)).mp h1
        have : (n : ℚ) ≤ 100 * (⌈(n : ℚ) / 100⌉ : ℚ) := by linarith
        exact_mod_cast this
      · have h1 : (⌈(n : ℚ) / 100⌉ : ℚ) < (n : ℚ) / 100 + 1 := Int.ceil_lt_add_one _
        have h2 : ((⌈(n : ℚ) / 100⌉ : ℚ) - 1) * 100 < (n : ℚ) :=
          (lt_div_iff₀ (by norm_num)).mp (by linarith)
        have : 100 * (⌈(n : ℚ) / 100⌉ : ℚ) < (n : ℚ) + 100 := by linarith
        exact_mod_cast this
    · exact absurd hok (by simp)
  · exact absurd hok (by simp)

/-- Claim C4 witness: on EGG_STEPS 250, 500 and 501 the output hatch
times are 3, 5 and 6. -/
theorem C4_egg_hatch_time_witness :
    calculated_egg_hatch_time_table eggT =
      .ok ⟨["ID", "EGG_HATCH_TIME"],
           [[.vInt 1, .vInt 3], [.vInt 2, .vInt 5], [.vInt 3, .vInt 6]]⟩ ∧
    (∃ q : Int,
      rowGet ["ID", "EGG_HATCH_TIME"] [Val.vInt 3, Val.vInt 6] "EGG_HATCH_TIME" =
        some (.vInt q) ∧ (501 : Int) ≤ 100 * q ∧ 100 * q < 501 + 100) := by
  have hok : calculated_egg_hatch_time_table eggT =
      .ok ⟨["ID", "EGG_HATCH_TIME"],
           [[.vInt 1, .vInt 3], [.vInt 2, .vInt 5], [.vInt 3, .vInt 6]]⟩ := by
    decide
  refine ⟨hok, ?_⟩
  have h := (C4_egg_hatch_time eggT _ hok).2
    ([Val.vInt 3, Val.vInt 501], [Val.vInt 3, Val.vInt 6])
    (by decide) 501 (by norm_num) (by norm_num) (by decide)
  simpa using h

set_option maxRecDepth 8192 in
/-- Claim C4 counterexample: at `EGG_STEPS = 100 * 2 ^ 47 + 1` (beyond
the 53-bit binary64 significand) the step emits
`EGG_HATCH_TIME = 2 ^ 47 = 140737488355328`, strictly below the exact
ceiling `2 ^ 47 + 1` of `EGG_STEPS / 100`: casting the odd Int64 to
Float64 rounds it (ties to even) down to `100 * 2 ^ 47`, whose quotient
by 100 is exactly `2 ^ 47`. -/
theorem C4_counterexample :
    calculated_egg_hatch_time_table bigEggT =
      .ok ⟨["ID", "EGG_HATCH_TIME"], [[.vInt 1, .vInt 140737488355328]]⟩ ∧
    ¬ ((14073748835532801 : Int) ≤ 100 * 140737488355328) := by
  constructor
  · decide
  · decide

/-- Claim C5: the type-count step emits one row per input row, in input
order, whose `TYPE_COUNT` is the number of filtered rows sharing that
row's `TYPE_1` value (a window count, not a collapsed group-by), and
whose `ID` is the row's own `ID`. -/
theorem C5_type_count (t out : Table) (hok : type_count_table t = .ok out) :
    out.rows.length = t.rows.length ∧
    ∀ rp ∈ List.zip t.rows out.rows,
      rowGet out.header rp.2 "ID" = some ((rowGet t.header rp.1 "ID").getD .vNull) ∧
      rowGet out.header rp.2 "TYPE_COUNT" = some (.vInt (t.rows.countP (fun s =>
        decide (rowGet t.header s "TYPE_1" = rowGet t.header rp.1 "TYPE_1")))) := by
  unfold type_count_table at hok
  split at hok
  · rw [Except.ok.injEq] at hok
    subst hok
    refine ⟨by simp, ?_⟩
    intro rp hrp
    rw [zip_map_self] at hrp
    obtain ⟨r, hr, rfl⟩ := List.mem_map.mp hrp
    exact ⟨by simp [rowGet], by simp [rowGet]⟩
  · exact absurd hok (by simp)

/-- Claim C5 witness: TYPE_1 values fire, fire, water give TYPE_COUNT
values 2, 2, 1 in input order. -/
theorem C5_type_count_witness :
    type_count_table typeT = .ok ⟨["ID", "TYPE_COUNT"],
      [[.vInt 1, .vInt 2], [.vInt 2, .vInt 2], [.vInt 3, .vInt 1]]⟩ ∧
    rowGet ["ID", "TYPE_COUNT"] [Val.vInt 1, Val.vInt 2] "TYPE_COUNT" =
      some (.vInt (typeT.rows.countP (fun s =>
        decide (rowGet typeT.header s "TYPE_1" =
          rowGet typeT.header [Val.vInt 1, Val.vStr "fire"] "TYPE_1")))) := by
  have hok : type_count_table typeT = .ok ⟨["ID", "TYPE_COUNT"],
      [[.vInt 1, .vInt 2], [.vInt 2, .vInt 2], [.vInt 3, .vInt 1]]⟩ := by decide
  refine ⟨hok, ?_⟩
  exact ((C5_type_count typeT _ hok).2
    ([Val.vInt 1, Val.vStr "fire"], [Val.vInt 1, Val.vInt 2]) (by decide)).2

/-- The rename map in explicit conditional form. -/
theorem renameCol_eval (c : String) : renameCol c =
    if "Type 1" = c then "TYPE_1" else if "Type 2" = c then "TYPE_2"
    else if "Sp. Attack" = c then "SP_ATTACK"
    else if "Sp. Defense" = c then "SP_DEFENSE" else c := by
  unfold renameCol renameMapping
  by_cases h1 : "Type 1" = c
  · simp [List.find?, h1]
  · by_cases h2 : "Type 2" = c
    · simp [List.find?, h1, h2]
    · by_cases h3 : "Sp. Attack" = c
      · simp [List.find?, h1, h2, h3]
      · by_cases h4 : "Sp. Defense" = c
        · simp [List.find?, h1, h2, h3, h4]
        · simp [List.find?, h1, h2, h3, h4]

/-- No column is renamed onto a legacy source name. -/
theorem renameCol_ne_src (c : String) (p : String × String)
    (hp : p ∈ renameMapping) : renameCol c ≠ p.1 := by
  rw [renameCol_eval]
  fin_cases hp <;> split_ifs <;> intro hh <;>
    first
      | exact absurd hh (by decide)
      | (subst hh; simp_all)

/-- Claim C6: the normalizer applies exactly the four-entry rename map —
on success the output has exactly one column named by each target and
none named by each source, with the rows untouched — and it fails
whenever one of the four source columns is missing. -/
theorem C6_rename :
    (∀ t out : Table, renamed_table t = .ok out →
      out.rows = t.rows ∧
      ∀ p ∈ renameMapping, out.header.count p.2 = 1 ∧ out.header.count p.1 = 0) ∧
    (∀ t : Table, (∃ p ∈ renameMapping, p.1 ∉ t.header) →
      (renamed_table t).isOk = false) := by
  constructor
  · intro t out hok
    unfold renamed_table at hok
    split at hok
    · split at hok
      · rename_i hall hnd
        rw [Except.ok.injEq] at hok
        subst hok
        refine ⟨rfl, ?_⟩
        intro p hp
        have hsrc : p.1 ∈ t.header := by
          have := List.all_eq_true.mp hall p hp
          simpa [List.contains] using this
        have hmapped : renameCol p.1 = p.2 := by
          fin_cases hp <;> simp [renameCol_eval]
        constructor
        · exact List.count_eq_one_of_mem hnd
            (List.mem_map.mpr ⟨p.1, hsrc, hmapped⟩)
        · refine List.count_eq_zero.mpr ?_
          intro hmem
          obtain ⟨c, _, hcr⟩ := List.mem_map.mp hmem
          exact renameCol_ne_src c p hp hcr
      · exact absurd hok (by simp)
    · exact absurd hok (by simp)
  · intro t ⟨p, hp, hmem⟩
    unfold renamed_table
    split
    · rename_i hall
      have : p.1 ∈ t.header := by
        have := List.all_eq_true.mp hall p hp
        simpa [List.contains] using this
      exact absurd this hmem
    · rfl

/-- Claim C6 witness: the sample table with all four legacy names is
renamed in place — values, row count and order untouched — and dropping
the `Sp. Defense` column makes the step fail. -/
theorem C6_rename_witness :
    renamed_table renT = .ok ⟨["ID", "TYPE_1", "TYPE_2", "SP_ATTACK", "SP_DEFENSE"],
      [[.vInt 1, .vStr "grass", .vStr "poison", .vInt 65, .vInt 65]]⟩ ∧
    (Table.mk ["ID", "TYPE_1", "TYPE_2", "SP_ATTACK", "SP_DEFENSE"]
      [[Val.vInt 1, Val.vStr "grass", Val.vStr "poison", Val.vInt 65, Val.vInt 65]]).rows
      = renT.rows ∧
    ([("Type 1", "TYPE_1")] : List (String × String)).all (fun p =>
      decide ((["ID", "TYPE_1", "TYPE_2", "SP_ATTACK", "SP_DEFENSE"].count p.2 = 1))) = true ∧
    (renamed_table ⟨["ID", "Type 1", "Type 2", "Sp. Attack"], []⟩).isOk = false := by
  have hok : renamed_table renT = .ok ⟨["ID", "TYPE_1", "TYPE_2", "SP_ATTACK", "SP_DEFENSE"],
      [[.vInt 1, .vStr "grass", .vStr "poison", .vInt 65, .vInt 65]]⟩ := by decide
  refine ⟨hok, (C6_rename.1 renT _ hok).1, by decide, ?_⟩
  exact C6_rename.2 ⟨["ID", "Type 1", "Type 2", "Sp. Attack"], []⟩
    ⟨("Sp. Defense", "SP_DEFENSE"), by decide, by decide⟩

/-- The filter predicate of `filtered_table` holds exactly on rows whose
GEN cell reads as the number 1. -/
theorem genPred_iff (h : List String) (r : List Val) :
    genIsOne h r = true ↔ (rowGet h r "GEN").bind toQ = some 1 := by
  unfold genIsOne
  cases hq : (rowGet h r "GEN").bind toQ with
  | none => simp
  | some q => simp

/-- Claim C7: the filter keeps exactly the rows whose generation column
equals the integer 1, preserving the schema and the relative order of
the kept rows (stated by exact per-row multiplicities and sublist). -/
theorem C7_filter (t out : Table) (hok : filtered_table t = .ok out) :
    out.header = t.header ∧
    out.rows.Sublist t.rows ∧
    (∀ r ∈ out.rows, (rowGet t.header r "GEN").bind toQ = some 1) ∧
    (∀ r : List Val, out.rows.count r =
      if (rowGet t.header r "GEN").bind toQ = some 1 then t.rows.count r else 0) := by
  unfold filtered_table at hok
  split at hok
  · exact absurd hok (by simp)
  · split at hok
    · rw [Except.ok.injEq] at hok
      subst hok
      refine ⟨rfl, List.filter_sublist _, ?_, ?_⟩
      · intro r hrm
        dsimp only at hrm
        exact (genPred_iff t.header r).mp (List.of_mem_filter hrm)
      · intro r
        dsimp only
        by_cases hc : (rowGet t.header r "GEN").bind toQ = some 1
        · rw [if_pos hc]
          exact List.count_filter ((genPred_iff t.header r).mpr hc)
        · rw [if_neg hc]
          refine List.count_eq_zero.mpr ?_
          intro hmem
          exact hc ((genPred_iff t.header r).mp (List.of_mem_filter hmem))
    · exact absurd hok (by simp)

/-- Claim C7 witness: generations 1, 1, 2, 3 leave two rows, both of
generation 1, with the schema unchanged. -/
theorem C7_filter_witness :
    filtered_table genT =
      .ok ⟨["ID", "GEN"], [[.vInt 1, .vInt 1], [.vInt 2, .vInt 1]]⟩ ∧
    ([[Val.vInt 1, Val.vInt 1], [Val.vInt 2, Val.vInt 1]] : List (List Val)).length = 2 ∧
    ∀ r ∈ ([[Val.vInt 1, Val.vInt 1], [Val.vInt 2, Val.vInt 1]] : List (List Val)),
      (rowGet genT.header r "GEN").bind toQ = some 1 := by
  have hok : filtered_table genT =
      .ok ⟨["ID", "GEN"], [[.vInt 1, .vInt 1], [.vInt 2, .vInt 1]]⟩ := by decide
  exact ⟨hok, rfl, (C7_filter genT _ hok).2.2.1⟩

/-- Boolean contains agrees with list membership on column names. -/
theorem contains_eq_true_iff (h : List String) (x : String) :
    h.contains x = true ↔ x ∈ h := by
  simp [List.contains]

/-- Claim C8 counterexample: two inputs sharing the non-key column
`GEN` do not make the Joiner fail — the join succeeds, the duplicate
arriving with the `_right` suffix. -/
theorem C8_counterexample :
    ("GEN" ∈ baseT.header ∧ "GEN" ∈ clashT.header ∧ "GEN" ≠ "ID") ∧
    (joined_table baseT clashT reproT).isOk = true ∧
    joined_table baseT clashT reproT =
      .ok ⟨["ID", "Type 1", "GEN", "GEN_right", "EGG_STEPS"],
        [[.vInt 1, .vStr "fire", .vInt 1, .vInt 7, .vInt 5120],
         [.vInt 2, .vStr "water", .vInt 1, .vInt 7, .vInt 5120]]⟩ := by
  decide

/-- Claim C8 (amended): the Joiner fails whenever `ID` is absent from
any of its three inputs; a shared non-ID column name alone does not
cause failure (the right duplicate is suffixed). -/
theorem C8_joiner_missing_id (a b c : Table)
    (h : "ID" ∉ a.header ∨ "ID" ∉ b.header ∨ "ID" ∉ c.header) :
    (joined_table a b c).isOk = false := by
  have herr : ∀ l r : Table, "ID" ∉ l.header ∨ "ID" ∉ r.header →
      ∀ j, Table.join l r "ID" ≠ .ok j := by
    intro l r hlr j hj
    unfold Table.join at hj
    split at hj
    · simp at hj
    · split at hj
      · simp at hj
      · rename_i h1 h2
        rcases hlr with hl | hr
        · refine hl ((contains_eq_true_iff _ _).mp ?_)
          cases hcl : l.header.contains "ID"
          · exact absurd hcl h1
          · rfl
        · refine hr ((contains_eq_true_iff _ _).mp ?_)
          cases hcr : r.header.contains "ID"
          · exact absurd hcr h2
          · rfl
  cases hab : Table.join a b "ID" with
  | error s =>
    unfold joined_table
    rw [hab]
    rfl
  | ok t =>
    rcases h with ha | hb | hc
    · exact absurd hab (herr a b (Or.inl ha) t)
    · exact absurd hab (herr a b (Or.inr hb) t)
    · unfold joined_table
      rw [hab]
      cases htc : Table.join t c "ID" with
      | error s =>
        show (Table.join t c "ID").isOk = false
        rw [htc]
        rfl
      | ok j => exact absurd htc (herr t c (Or.inr hc) j)

/-- Claim C8 (amended) witness: with the `ID` column missing from the
first input, the Joiner errors. -/
theorem C8_joiner_missing_id_witness :
    (joined_table noIdT battleT reproT).isOk = false :=
  C8_joiner_missing_id noIdT battleT reproT (Or.inl (by decide))

/-- Join-key equality holds exactly when both cells hold the same
non-null value. -/
theorem oEq_iff {x y : Option Val} :
    oEq x y = true ↔ ∃ v, v ≠ Val.vNull ∧ x = some v ∧ y = some v := by
  cases x with
  | none => simp [oEq]
  | some a =>
    cases y with
    | none => simp [oEq]
    | some b =>
      simp only [oEq, Bool.and_eq_true, Bool.not_eq_true', decide_eq_true_eq]
      constructor
      · rintro ⟨⟨ha, _⟩, hab⟩
        subst hab
        refine ⟨a, ?_, rfl, rfl⟩
        intro hcontr
        subst hcontr
        simp [Val.isNullV] at ha
      · rintro ⟨v, hv, hav, hbv⟩
        rw [Option.some_inj] at hav hbv
        subst hav
        subst hbv
        refine ⟨⟨?_, ?_⟩, rfl⟩ <;> cases b <;> simp_all [Val.isNullV]

/-- Membership in the rows of a join: a pairing of a left row with a
key-matching right row. -/
theorem mem_joinRows {lh rh : List String} {lrows rrows : List (List Val)}
    {k : String} {row : List Val} :
    row ∈ joinRows lh lrows rh rrows k ↔
    ∃ lr ∈ lrows, ∃ rr ∈ rrows,
      oEq (rowGet lh lr k) (rowGet rh rr k) = true ∧
      row = lr ++ dropKey rh rr k := by
  unfold joinRows
  constructor
  · intro hmem
    obtain ⟨lr, hlr, hrow⟩ := List.mem_flatMap.mp hmem
    obtain ⟨rr, hrr, hre⟩ := List.mem_map.mp hrow
    obtain ⟨hrr2, hpred⟩ := List.mem_filter.mp hrr
    exact ⟨lr, hlr, rr, hrr2, hpred, hre.symm⟩
  · rintro ⟨lr, hlr, rr, hrr, hpred, rfl⟩
    refine List.mem_flatMap.mpr ⟨lr, hlr, ?_⟩
    exact List.mem_map.mpr ⟨rr, List.mem_filter.mpr ⟨hrr, hpred⟩, rfl⟩

/-- What a successful join tells us about its output. -/
theorem join_ok_elim {l r j : Table} {k : String}
    (h : Table.join l r k = .ok j) :
    j.header = joinHeader l.header r.header k ∧
    j.rows = joinRows l.header l.rows r.header r.rows k := by
  unfold Table.join at h
  split at h
  · simp at h
  · split at h
    · simp at h
    · split at h
      · rw [Except.ok.injEq] at h
        subst h
        exact ⟨rfl, rfl⟩
      · simp at h

/-- A successful three-way join decomposes into two successful joins. -/
theorem joined_table_ok_elim {a b c j : Table}
    (h : joined_table a b c = .ok j) :
    ∃ t, Table.join a b "ID" = .ok t ∧ Table.join t c "ID" = .ok j := by
  unfold joined_table at h
  cases hab : Table.join a b "ID" with
  | error s =>
    rw [hab] at h
    exact absurd h (by simp [Except.bind, bind])
  | ok t =>
    rw [hab] at h
    exact ⟨t, rfl, h⟩

/-- Claim C2: the Joiner computes the inner join of its three inputs on
`ID` — a (non-null, per the data model) `ID` value appears in the
output exactly when it appears in all three inputs — and, when the
non-key column names of the inputs are pairwise disjoint (as in this
pipeline), the output column order is the base columns, then the battle
columns without `ID`, then the reproduction columns without `ID`. -/
theorem C2_joiner :
    (∀ a b c j : Table, joined_table a b c = .ok j →
      ∀ v : Val, v ≠ .vNull →
        ((∃ row ∈ j.rows, rowGet j.header row "ID" = some v) ↔
        ((∃ row ∈ a.rows, rowGet a.header row "ID" = some v) ∧
         (∃ row ∈ b.rows, rowGet b.header row "ID" = some v) ∧
         (∃ row ∈ c.rows, rowGet c.header row "ID" = some v)))) ∧
    (∀ a b c j : Table, joined_table a b c = .ok j →
      (∀ x ∈ b.header, x ≠ "ID" → x ∉ a.header) →
      (∀ x ∈ c.header, x ≠ "ID" → x ∉ a.header ∧ x ∉ b.header) →
      j.header = a.header ++ b.header.filter (fun s => s ≠ "ID") ++
        c.header.filter (fun s => s ≠ "ID")) := by
  constructor
  · intro a b c j hj v hv
    obtain ⟨t, hab, htc⟩ := joined_table_ok_elim hj
    obtain ⟨habh, habr⟩ := join_ok_elim hab
    obtain ⟨hjh, hjr⟩ := join_ok_elim htc
    constructor
    · rintro ⟨row, hrow, hrowid⟩
      rw [hjr] at hrow
      obtain ⟨p, hp, cr, hcr, hpred, rfl⟩ := mem_joinRows.mp hrow
      obtain ⟨w, _, hw1, hw2⟩ := oEq_iff.mp hpred
      rw [habr] at hp
      obtain ⟨ar, har, br, hbr, hpred2, rfl⟩ := mem_joinRows.mp hp
      obtain ⟨u, _, hu1, hu2⟩ := oEq_iff.mp hpred2
      have hpid : rowGet t.header (ar ++ dropKey b.header br "ID") "ID" = some u := by
        rw [habh]
        exact rowGet_append_some _ _ hu1
      have hwu : w = u := by
        rw [hpid] at hw1
        exact (Option.some_inj.mp hw1).symm
      have hrid : rowGet j.header ((ar ++ dropKey b.header br "ID") ++
          dropKey c.header cr "ID") "ID" = some u := by
        rw [hjh, hjr] at *
        rw [hjh]
        exact rowGet_append_some _ _ hpid
      have hv : v = u := by
        rw [hrid] at hrowid
        exact (Option.some_inj.mp hrowid).symm
      subst hv
      subst hwu
      exact ⟨⟨ar, har, hu1⟩, ⟨br, hbr, hu2⟩, ⟨cr, hcr, hw2⟩⟩
    · rintro ⟨⟨ar, har, hau⟩, ⟨br, hbr, hbu⟩, ⟨cr, hcr, hcu⟩⟩
      have hpmem : (ar ++ dropKey b.header br "ID") ∈ t.rows := by
        rw [habr]
        exact mem_joinRows.mpr ⟨ar, har, br, hbr, oEq_iff.mpr ⟨v, hv, hau, hbu⟩, rfl⟩
      have hpid : rowGet t.header (ar ++ dropKey b.header br "ID") "ID" = some v := by
        rw [habh]
        exact rowGet_append_some _ _ hau
      refine ⟨(ar ++ dropKey b.header br "ID") ++ dropKey c.header cr "ID", ?_, ?_⟩
      · rw [hjr]
        exact mem_joinRows.mpr ⟨_, hpmem, cr, hcr, oEq_iff.mpr ⟨v, hv, hpid, hcu⟩, rfl⟩
      · rw [hjh]
        exact rowGet_append_some _ _ hpid
  · intro a b c j hj hdb hdc
    obtain ⟨t, hab, htc⟩ := joined_table_ok_elim hj
    obtain ⟨habh, _⟩ := join_ok_elim hab
    obtain ⟨hjh, _⟩ := join_ok_elim htc
    have hbh : joinHeader a.header b.header "ID" =
        a.header ++ b.header.filter (fun s => s ≠ "ID") := by
      unfold joinHeader
      congr 1
      rw [List.map_congr_left, List.map_id]
      intro x hx
      obtain ⟨hxb, hxne⟩ := List.mem_filter.mp hx
      have : x ∉ a.header := hdb x hxb (by simpa using hxne)
      simp [List.contains, this]
    have hch : joinHeader t.header c.header "ID" =
        t.header ++ c.header.filter (fun s => s ≠ "ID") := by
      unfold joinHeader
      congr 1
      rw [List.map_congr_left, List.map_id]
      intro x hx
      obtain ⟨hxc, hxne⟩ := List.mem_filter.mp hx
      obtain ⟨hna, hnb⟩ := hdc x hxc (by simpa using hxne)
      have : x ∉ t.header := by
        rw [habh, hbh]
        intro hmem
        rcases List.mem_append.mp hmem with h' | h'
        · exact hna h'
        · exact hnb (List.mem_filter.mp h').1
      simp [List.contains, this]
    rw [hjh, hch, habh, hbh, List.append_assoc]

/-- Claim C2 witness: three tables sharing IDs 1 and 2, with ID 3
present only in the first two, join to exactly the rows with IDs 1 and
2, in the contracted column order. -/
theorem C2_joiner_witness :
    joined_table baseT battleT reproT =
      .ok ⟨["ID", "Type 1", "GEN", "ATTACK", "EGG_STEPS"],
        [[.vInt 1, .vStr "fire", .vInt 1, .vInt 52, .vInt 5120],
         [.vInt 2, .vStr "water", .vInt 1, .vInt 48, .vInt 5120]]⟩ ∧
    (∃ row ∈ (Table.mk ["ID", "Type 1", "GEN", "ATTACK", "EGG_STEPS"]
        [[Val.vInt 1, Val.vStr "fire", Val.vInt 1, Val.vInt 52, Val.vInt 5120],
         [Val.vInt 2, Val.vStr "water", Val.vInt 1, Val.vInt 48, Val.vInt 5120]]).rows,
      rowGet ["ID", "Type 1", "GEN", "ATTACK", "EGG_STEPS"] row "ID" =
        some (.vInt 2)) ∧
    ¬ (∃ row ∈ (Table.mk ["ID", "Type 1", "GEN", "ATTACK", "EGG_STEPS"]
        [[Val.vInt 1, Val.vStr "fire", Val.vInt 1, Val.vInt 52, Val.vInt 5120],
         [Val.vInt 2, Val.vStr "water", Val.vInt 1, Val.vInt 48, Val.vInt 5120]]).rows,
      rowGet ["ID", "Type 1", "GEN", "ATTACK", "EGG_STEPS"] row "ID" =
        some (.vInt 3)) := by
  have hok : joined_table baseT battleT reproT =
      .ok ⟨["ID", "Type 1", "GEN", "ATTACK", "EGG_STEPS"],
        [[.vInt 1, .vStr "fire", .vInt 1, .vInt 52, .vInt 5120],
         [.vInt 2, .vStr "water", .vInt 1, .vInt 48, .vInt 5120]]⟩ := by decide
  refine ⟨hok, ?_, ?_⟩
  · exact (C2_joiner.1 baseT battleT reproT _ hok (.vInt 2) (by decide)).mpr
      ⟨by decide, by decide, by decide⟩
  · intro hmem
    have h3 :=
      ((C2_joiner.1 baseT battleT reproT _ hok (.vInt 3) (by decide)).mp hmem).2.2
    revert h3
    decide

/-- A zero-reading height cell squares, after the Float32 cast, to the
float zero. -/
theorem castFloat32_sq_zero {hv : Val} (h : toQ hv = some 0) :
    valPow2 (castFloat32 hv) = .vRat 0 := by
  cases hv <;> simp [toQ] at h <;>
    simp [castFloat32, valPow2, h, sqQ_eq]

/-- Dividing a positive finite cell by the float zero yields infinity. -/
theorem valDiv_pos_zero {wv : Val} {q : ℚ} (h : toQ wv = some q) (hq : 0 < q) :
    valDiv wv (.vRat 0) = .vInf := by
  cases wv <;> simp [toQ] at h <;>
    simp [valDiv, toQ, h, hq]

/-- Claim C10: the BMI step is total on zero heights — with the BMI
columns present and numeric it succeeds, keeps one output row per input
row, and a row with height reading zero and positive weight gets
`BMI = inf` (IEEE division by zero) while keeping its `ID`. -/
theorem C10_bmi_zero_height (t : Table)
    (hcols : bmiCols.all (fun c => t.header.contains c) = true)
    (hvalid : ∀ r ∈ t.rows,
      (numOrNull ((rowGet t.header r "WEIGHT_KILOGRAMS").getD .vNull) &&
       numOrNull ((rowGet t.header r "HEIGHT_METERS").getD .vNull)) = true) :
    (calculated_bmi_table t).isOk = true ∧
    ∀ out, calculated_bmi_table t = .ok out →
      out.rows.length = t.rows.length ∧
      ∀ rp ∈ List.zip t.rows out.rows,
        rowGet out.header rp.2 "ID" =
          some ((rowGet t.header rp.1 "ID").getD .vNull) ∧
        ∀ hv wv : Val, rowGet t.header rp.1 "HEIGHT_METERS" = some hv →
          toQ hv = some 0 →
          rowGet t.header rp.1 "WEIGHT_KILOGRAMS" = some wv →
          ∀ q : ℚ, toQ wv = some q → 0 < q →
            rowGet out.header rp.2 "BMI" = some .vInf := by
  have hall : (t.rows.all (fun r =>
      numOrNull ((rowGet t.header r "WEIGHT_KILOGRAMS").getD .vNull) &&
      numOrNull ((rowGet t.header r "HEIGHT_METERS").getD .vNull))) = true :=
    List.all_eq_true.mpr hvalid
  constructor
  · unfold calculated_bmi_table
    rw [if_pos hcols, if_pos hall]
    rfl
  · intro out hok
    unfold calculated_bmi_table at hok
    rw [if_pos hcols, if_pos hall, Except.ok.injEq] at hok
    subst hok
    refine ⟨by simp, ?_⟩
    intro rp hrp
    rw [zip_map_self] at hrp
    obtain ⟨r, hr, rfl⟩ := List.mem_map.mp hrp
    constructor
    · simp [rowGet]
    · intro hv wv hhv hhq hwv q hq hqpos
      have hhv' : rowGet t.header r "HEIGHT_METERS" = some hv := hhv
      have hwv' : rowGet t.header r "WEIGHT_KILOGRAMS" = some wv := hwv
      simp only [rowGet, hhv', hwv', Option.getD_some]
      rw [castFloat32_sq_zero hhq, valDiv_pos_zero hq hqpos]
      simp

/-- Claim C10 witness: weight 60 at height 0 produces a row with
`BMI = inf`; the other row is computed normally and no row is lost. -/
theorem C10_bmi_zero_height_witness :
    calculated_bmi_table hwT =
      .ok ⟨["ID", "BMI"], [[.vInt 1, .vInf], [.vInt 2, .vRat (mkRat 25 2)]]⟩ ∧
    rowGet ["ID", "BMI"] [Val.vInt 1, Val.vInf] "BMI" = some .vInf := by
  have hth := C10_bmi_zero_height hwT (by decide) (by decide)
  have hok : calculated_bmi_table hwT =
      .ok ⟨["ID", "BMI"], [[.vInt 1, .vInf], [.vInt 2, .vRat (mkRat 25 2)]]⟩ := by
    decide
  refine ⟨hok, ?_⟩
  exact (((hth.2 _ hok).2 ([Val.vInt 1, Val.vInt 60, Val.vInt 0], [Val.vInt 1, Val.vInf])
    (by decide)).2 (.vInt 0) (.vInt 60) (by decide) (by decide) (by decide)
    (mkRat 60 1) (by decide) (by decide))

/-- Join-key match against a fixed non-null value holds exactly on that
value. -/
theorem oEq_some_iff {v : Val} (hv : v ≠ Val.vNull) (o : Option Val) :
    oEq (some v) o = true ↔ o = some v := by
  constructor
  · intro h
    obtain ⟨w, _, h1, h2⟩ := oEq_iff.mp h
    rw [Option.some_inj] at h1
    rw [h2, h1]
  · rintro rfl
    exact oEq_iff.mpr ⟨v, hv, rfl, rfl⟩

/-- In a duplicate-free ID column, each present non-null value matches
exactly one row. -/
theorem countP_oEq_nodup {v : Val} (hv : v ≠ Val.vNull) :
    ∀ l : List (Option Val), l.Nodup → some v ∈ l →
      l.countP (fun o => oEq (some v) o) = 1 := by
  intro l
  induction l with
  | nil => intro _ h; simp at h
  | cons o rest ih =>
    intro hnd hmem
    obtain ⟨hnotmem, hnd2⟩ := List.nodup_cons.mp hnd
    rw [List.countP_cons]
    rcases List.mem_cons.mp hmem with h | h
    · subst h
      have hz : rest.countP (fun o => oEq (some (v : Val)) o) = 0 := by
        rw [List.countP_eq_zero]
        intro p hp hoe
        have hp2 : p = some v := (oEq_some_iff hv p).mp hoe
        exact hnotmem (hp2 ▸ hp)
      have hself : oEq (some v) (some v) = true := oEq_iff.mpr ⟨v, hv, rfl, rfl⟩
      rw [hz, hself]
      simp
    · have hne : oEq (some v) o = false := by
        cases hoe : oEq (some v) o
        · rfl
        · have ho : o = some v := (oEq_some_iff hv o).mp hoe
          exact absurd (by rw [ho]; exact h : o ∈ rest) hnotmem
      rw [ih hnd2 h, hne]
      simp

/-- When every left row's key matches exactly one right row, a join
keeps the left row count and the left ID column. -/
theorem joinRows_pres (lh rh : List String) (rrows : List (List Val)) :
    ∀ lrows : List (List Val),
    (∀ lr ∈ lrows, ∃ v, rowGet lh lr "ID" = some v ∧
      rrows.countP (fun rr => oEq (some v) (rowGet rh rr "ID")) = 1) →
    (joinRows lh lrows rh rrows "ID").length = lrows.length ∧
    (joinRows lh lrows rh rrows "ID").map
      (fun row => rowGet (joinHeader lh rh "ID") row "ID") =
    lrows.map (fun row => rowGet lh row "ID") := by
  intro lrows
  induction lrows with
  | nil => intro _; exact ⟨rfl, rfl⟩
  | cons lr rest ih =>
    intro hmatch
    obtain ⟨v, hv, hcount⟩ := hmatch lr (List.mem_cons_self _ _)
    have hrest := ih (fun x hx => hmatch x (List.mem_cons_of_mem _ hx))
    have hsplit : joinRows lh (lr :: rest) rh rrows "ID" =
        ((rrows.filter (fun rr =>
          oEq (rowGet lh lr "ID") (rowGet rh rr "ID"))).map
          (fun rr => lr ++ dropKey rh rr "ID")) ++
        joinRows lh rest rh rrows "ID" := by
      unfold joinRows
      rw [List.flatMap_cons]
    rw [hv] at hsplit
    rw [List.countP_eq_length_filter] at hcount
    obtain ⟨x, hx⟩ := List.length_eq_one.mp hcount
    rw [hx] at hsplit
    have hhead : rowGet (joinHeader lh rh "ID")
        (lr ++ dropKey rh x "ID") "ID" = some v := by
      unfold joinHeader
      exact rowGet_append_some _ _ hv
    constructor
    · rw [hsplit]
      simp [hrest.1]
    · rw [hsplit]
      simp only [List.map_append, List.map_cons, List.map_nil,
        List.singleton_append]
      rw [hhead, hrest.2, hv]

/-- A usable join key is exactly a present non-null value. -/
theorem idOk_iff (o : Option Val) :
    idOk o = true ↔ ∃ v, v ≠ Val.vNull ∧ o = some v := by
  cases o with
  | none => simp [idOk]
  | some v => cases v <;> simp [idOk, Val.isNullV]

/-- A successful join against a derived table carrying the same ID
column preserves the row count and the ID column. -/
theorem join_step {l r j : Table} (hok : Table.join l r "ID" = .ok j)
    (hids : ∀ o ∈ idList l, idOk o = true)
    (hnd : (idList l).Nodup)
    (hre : idList r = idList l) :
    j.rows.length = l.rows.length ∧ idList j = idList l := by
  obtain ⟨hjh, hjr⟩ := join_ok_elim hok
  have hmatch : ∀ lr ∈ l.rows, ∃ v, rowGet l.header lr "ID" = some v ∧
      r.rows.countP (fun rr => oEq (some v) (rowGet r.header rr "ID")) = 1 := by
    intro lr hlr
    have hm : rowGet l.header lr "ID" ∈ idList l := List.mem_map_of_mem _ hlr
    obtain ⟨v, hvn, hv⟩ := (idOk_iff _).mp (hids _ hm)
    refine ⟨v, hv, ?_⟩
    have hcnt : r.rows.countP
        (fun rr => oEq (some v) (rowGet r.header rr "ID")) =
        (idList r).countP (fun o => oEq (some v) o) := by
      unfold idList
      rw [List.countP_map]
      rfl
    rw [hcnt, hre]
    exact countP_oEq_nodup hvn (idList l) hnd (hv ▸ hm)
  have hpres := joinRows_pres l.header r.header r.rows l.rows hmatch
  constructor
  · rw [hjr]
    exact hpres.1
  · unfold idList
    rw [hjr, hjh]
    exact hpres.2

/-- The narrow `{ID, value}` projections keep the ID column of their
source. -/
theorem idList_map_pair (t : Table) (hd2 : String) (f : List Val → Val)
    (hsome : ∀ o ∈ idList t, o.isSome = true) :
    idList ⟨["ID", hd2],
      t.rows.map (fun r => [(rowGet t.header r "ID").getD .vNull, f r])⟩ =
    idList t := by
  unfold idList
  simp only [List.map_map]
  apply List.map_congr_left
  intro r hr
  obtain ⟨v, hv⟩ := Option.isSome_iff_exists.mp
    (hsome _ (List.mem_map_of_mem _ hr))
  simp [Function.comp, rowGet, hv]

/-- Appending a column on the right leaves the ID column unchanged. -/
theorem idList_zipWith (h : List String) (name : String) :
    ∀ (rows : List (List Val)) (vals : List Val),
    rows.length ≤ vals.length →
    (∀ r ∈ rows, (rowGet h r "ID").isSome = true) →
    (rows.zipWith (fun r v => r ++ [v]) vals).map
      (fun row => rowGet (h ++ [name]) row "ID") =
    rows.map (fun row => rowGet h row "ID") := by
  intro rows
  induction rows with
  | nil => intro vals _ _; simp
  | cons r rest ih =>
    intro vals hlen hsome
    cases vals with
    | nil => simp at hlen
    | cons v vs =>
      simp only [List.zipWith_cons_cons, List.map_cons]
      congr 1
      · obtain ⟨w, hw⟩ :=
          Option.isSome_iff_exists.mp (hsome r (List.mem_cons_self _ _))
        rw [hw, rowGet_append_some _ _ hw]
      · exact ih vs (by simpa using hlen)
          (fun x hx => hsome x (List.mem_cons_of_mem _ hx))

/-- The rank step keeps the header shape and the ID column of the BMI
table it decorates. -/
theorem idList_ranked_bmi {bt rb : Table} (hok : ranked_bmi_table bt = .ok rb)
    (hh : bt.header = ["ID", "BMI"])
    (hsome : ∀ r ∈ bt.rows, (rowGet bt.header r "ID").isSome = true) :
    idList rb = idList bt := by
  unfold ranked_bmi_table at hok
  rw [if_pos (by rw [hh]; decide), Except.ok.injEq] at hok
  subst hok
  unfold withColumn
  rw [if_neg (by rw [hh]; decide)]
  unfold idList
  apply idList_zipWith
  · simp
  · exact hsome

/-- A successful aggregation decomposes into four successful joins. -/
theorem aggregated_ok_elim {t tc bs eh rb out : Table}
    (h : aggregated_table t tc bs eh rb = .ok out) :
    ∃ a b c, Table.join t tc "ID" = .ok a ∧ Table.join a bs "ID" = .ok b ∧
      Table.join b eh "ID" = .ok c ∧ Table.join c rb "ID" = .ok out := by
  unfold aggregated_table at h
  cases ha : Table.join t tc "ID" with
  | error s =>
    rw [ha] at h
    exact absurd h (by simp [Except.bind, bind])
  | ok a =>
    rw [ha] at h
    have h2 : ((Table.join a bs "ID").bind fun b =>
        (Table.join b eh "ID").bind fun c => Table.join c rb "ID") = .ok out := h
    cases hb : Table.join a bs "ID" with
    | error s =>
      rw [hb] at h2
      exact absurd h2 (by simp [Except.bind, bind])
    | ok b =>
      rw [hb] at h2
      have h3 : ((Table.join b eh "ID").bind fun c =>
          Table.join c rb "ID") = .ok out := h2
      cases hc : Table.join b eh "ID" with
      | error s =>
        rw [hc] at h3
        exact absurd h3 (by simp [Except.bind, bind])
      | ok c =>
        rw [hc] at h3
        exact ⟨a, b, c, rfl, hb, hc, h3⟩

/-- Claim C1: with unique non-null IDs, when the four derived tables
are computed from the same filtered table, the Aggregator's chain of
inner joins keeps exactly one output row per filtered row — no
duplication, no loss. -/
theorem C1_aggregator_row_count (t tc bs eh bt rb out : Table)
    (hids : ∀ o ∈ idList t, idOk o = true)
    (hnd : (idList t).Nodup)
    (h1 : type_count_table t = .ok tc)
    (h2 : calculated_base_stats_table t = .ok bs)
    (h3 : calculated_egg_hatch_time_table t = .ok eh)
    (h4 : calculated_bmi_table t = .ok bt)
    (h5 : ranked_bmi_table bt = .ok rb)
    (h6 : aggregated_table t tc bs eh rb = .ok out) :
    out.rows.length = t.rows.length := by
  have hsome : ∀ o ∈ idList t, o.isSome = true := by
    intro o ho
    obtain ⟨v, _, hv⟩ := (idOk_iff o).mp (hids o ho)
    rw [hv]
    rfl
  -- ID columns of the four derived tables
  have htc : idList tc = idList t := by
    unfold type_count_table at h1
    split at h1
    · rw [Except.ok.injEq] at h1
      subst h1
      exact idList_map_pair t "TYPE_COUNT" _ hsome
    · simp at h1
  have hbs : idList bs = idList t := by
    unfold calculated_base_stats_table at h2
    split at h2
    · split at h2
      · rw [Except.ok.injEq] at h2
        subst h2
        exact idList_map_pair t "BASE_STATS" _ hsome
      · simp at h2
    · simp at h2
  have heh : idList eh = idList t := by
    unfold calculated_egg_hatch_time_table at h3
    split at h3
    · split at h3
      · rw [Except.ok.injEq] at h3
        subst h3
        exact idList_map_pair t "EGG_HATCH_TIME" _ hsome
      · simp at h3
    · simp at h3
  have hbt : bt.header = ["ID", "BMI"] ∧ idList bt = idList t := by
    unfold calculated_bmi_table at h4
    split at h4
    · split at h4
      · rw [Except.ok.injEq] at h4
        subst h4
        exact ⟨rfl, idList_map_pair t "BMI" _ hsome⟩
      · simp at h4
    · simp at h4
  have hbtsome : ∀ r ∈ bt.rows, (rowGet bt.header r "ID").isSome = true := by
    intro r hr
    have : rowGet bt.header r "ID" ∈ idList bt := List.mem_map_of_mem _ hr
    rw [hbt.2] at this
    exact hsome _ this
  have hrb : idList rb = idList t :=
    (idList_ranked_bmi h5 hbt.1 hbtsome).trans hbt.2
  obtain ⟨a, b, c, ha, hb, hc, hd⟩ := aggregated_ok_elim h6
  have s1 := join_step ha hids hnd htc
  have s2 := join_step hb (by rw [s1.2]; exact hids)
    (by rw [s1.2]; exact hnd) (by rw [hbs, s1.2])
  have s3 := join_step hc (by rw [s2.2, s1.2]; exact hids)
    (by rw [s2.2, s1.2]; exact hnd) (by rw [heh, s2.2, s1.2])
  have s4 := join_step hd (by rw [s3.2, s2.2, s1.2]; exact hids)
    (by rw [s3.2, s2.2, s1.2]; exact hnd) (by rw [hrb, s3.2, s2.2, s1.2])
  rw [s4.1, s3.1, s2.1, s1.1]

/-- Claim C1 witness: a two-row filtered table with distinct IDs and
its four derived tables aggregate to exactly two rows. -/
theorem C1_aggregator_row_count_witness :
    aggregated_table fullT tcF bsF ehF rbF = .ok aggF ∧
    aggF.rows.length = fullT.rows.length :=
  ⟨by decide,
   C1_aggregator_row_count fullT tcF bsF ehF btF rbF aggF
     (by decide) (by decide) (by decide) (by decide) (by decide)
     (by decide) (by decide) (by decide)⟩

/-- The float ordering is irreflexive. -/
theorem valLt_irrefl (a : Val) : valLt a a = false := by
  cases a <;> simp [valLt]

/-- The float ordering is transitive on float values. -/
theorem valLt_trans_float {a b c : Val}
    (ha : isFloatV a = true) (hb : isFloatV b = true) (hc : isFloatV c = true)
    (h1 : valLt a b = true) (h2 : valLt b c = true) : valLt a c = true := by
  cases a <;> cases b <;> cases c <;> simp_all [isFloatV, valLt]
  exact lt_trans h1 h2

/-- The float ordering is total on float values. -/
theorem valLt_total_float {a b : Val}
    (ha : isFloatV a = true) (hb : isFloatV b = true) (hne : a ≠ b) :
    valLt a b = true ∨ valLt b a = true := by
  cases a <;> cases b <;> simp_all [isFloatV, valLt]

/-- Descending stable order on row indices: irreflexive. -/
theorem rankPrec_irrefl (bs : List Val) (i : Nat) :
    rankPrec bs i i = false := by
  simp [rankPrec, valLt_irrefl]

/-- Descending stable order on row indices: transitive. -/
theorem rankPrec_trans {bs : List Val}
    (hfl : ∀ b ∈ bs, isFloatV b = true) {k j i : Nat}
    (hk : k < bs.length) (hj : j < bs.length) (hi : i < bs.length)
    (h1 : rankPrec bs k j = true) (h2 : rankPrec bs j i = true) :
    rankPrec bs k i = true := by
  have hbk : isFloatV (bs.getD k .vNull) = true := by
    rw [List.getD_eq_getElem bs .vNull hk]
    exact hfl _ (List.getElem_mem hk)
  have hbj : isFloatV (bs.getD j .vNull) = true := by
    rw [List.getD_eq_getElem bs .vNull hj]
    exact hfl _ (List.getElem_mem hj)
  have hbi : isFloatV (bs.getD i .vNull) = true := by
    rw [List.getD_eq_getElem bs .vNull hi]
    exact hfl _ (List.getElem_mem hi)
  simp only [rankPrec, Bool.or_eq_true, Bool.and_eq_true,
    decide_eq_true_eq] at h1 h2 ⊢
  rcases h1 with h1 | ⟨h1e, h1lt⟩ <;> rcases h2 with h2 | ⟨h2e, h2lt⟩
  · exact Or.inl (valLt_trans_float hbi hbj hbk h2 h1)
  · rw [h2e] at h1
    exact Or.inl h1
  · rw [← h1e] at h2
    exact Or.inl h2
  · exact Or.inr ⟨h1e.trans h2e, h1lt.trans h2lt⟩

/-- Descending stable order on row indices: total. -/
theorem rankPrec_total {bs : List Val}
    (hfl : ∀ b ∈ bs, isFloatV b = true) {i j : Nat}
    (hi : i < bs.length) (hj : j < bs.length) (hne : i ≠ j) :
    rankPrec bs i j = true ∨ rankPrec bs j i = true := by
  have hbi : isFloatV (bs.getD i .vNull) = true := by
    rw [List.getD_eq_getElem bs .vNull hi]
    exact hfl _ (List.getElem_mem hi)
  have hbj : isFloatV (bs.getD j .vNull) = true := by
    rw [List.getD_eq_getElem bs .vNull hj]
    exact hfl _ (List.getElem_mem hj)
  simp only [rankPrec, Bool.or_eq_true, Bool.and_eq_true, decide_eq_true_eq]
  by_cases heq : bs.getD i .vNull = bs.getD j .vNull
  · rcases Nat.lt_or_ge i j with h | h
    · exact Or.inl (Or.inr ⟨heq, h⟩)
    · exact Or.inr (Or.inr ⟨heq.symm, Nat.lt_of_le_of_ne h (Ne.symm hne)⟩)
  · rcases valLt_total_float hbi hbj heq with h | h
    · exact Or.inr (Or.inl h)
    · exact Or.inl (Or.inl h)

/-- A predicate implied pointwise by another, failing somewhere the
other holds, counts strictly fewer elements. -/
theorem countP_lt_of {α : Type} (p q : α → Bool) :
    ∀ l : List α, (∀ x ∈ l, p x = true → q x = true) →
    ∀ x0, x0 ∈ l → p x0 = false → q x0 = true →
    l.countP p < l.countP q := by
  intro l
  induction l with
  | nil => intro _ x0 h0; simp at h0
  | cons y ys ih =>
    intro hpq x0 h0 hp0 hq0
    rw [List.countP_cons, List.countP_cons]
    rcases List.mem_cons.mp h0 with h | h
    · subst h
      have hle : ys.countP p ≤ ys.countP q :=
        List.countP_mono_left (fun x hx => hpq x (List.mem_cons_of_mem _ hx))
      simp [hp0, hq0]
      omega
    · have hlt := ih (fun x hx => hpq x (List.mem_cons_of_mem _ hx)) x0 h hp0 hq0
      have hy : (if p y then 1 else 0) ≤ (if q y then 1 else 0) := by
        by_cases hpy : p y = true
        · rw [if_pos hpy, if_pos (hpq y (List.mem_cons_self _ _) hpy)]
        · rw [if_neg hpy]
          omega
      omega

/-- A row preceding another in the descending stable order receives a
strictly smaller ordinal rank. -/
theorem ordRank_lt {bs : List Val}
    (hfl : ∀ b ∈ bs, isFloatV b = true) {j i : Nat}
    (hj : j < bs.length) (hi : i < bs.length)
    (hprec : rankPrec bs j i = true) :
    ordRank bs j < ordRank bs i := by
  unfold ordRank
  rw [← List.countP_eq_length_filter, ← List.countP_eq_length_filter]
  have h := countP_lt_of (fun m => rankPrec bs m j) (fun m => rankPrec bs m i)
    (List.range bs.length)
    (fun m hm hmj => rankPrec_trans hfl (List.mem_range.mp hm) hj hi hmj hprec)
    j (List.mem_range.mpr hj) (rankPrec_irrefl bs j) hprec
  omega

/-- Every ordinal rank lies in `[1, n]`. -/
theorem ordRank_le {bs : List Val} {i : Nat} (hi : i < bs.length) :
    ordRank bs i ≤ bs.length := by
  unfold ordRank
  rw [← List.countP_eq_length_filter]
  have h := countP_lt_of (fun m => rankPrec bs m i) (fun _ => true)
    (List.range bs.length) (fun _ _ _ => rfl)
    i (List.mem_range.mpr hi) (rankPrec_irrefl bs i) rfl
  have ht : (List.range bs.length).countP (fun _ => true) = bs.length := by
    simp
  omega

/-- The ordinal descending ranks of `n` rows are a permutation of
`1, …, n`. -/
theorem ordRank_perm (bs : List Val)
    (hfl : ∀ b ∈ bs, isFloatV b = true) :
    ((List.range bs.length).map (fun i => ordRank bs i)).Perm
      ((List.range bs.length).map (fun k => k + 1)) := by
  have hnd : ((List.range bs.length).map (fun i => ordRank bs i)).Nodup := by
    refine List.Nodup.map_on ?_ (List.nodup_range bs.length)
    intro x hx y hy hxy
    by_contra hne
    rcases rankPrec_total hfl (List.mem_range.mp hx) (List.mem_range.mp hy)
      hne with h | h
    · exact absurd hxy
        (Nat.ne_of_lt (ordRank_lt hfl (List.mem_range.mp hx)
          (List.mem_range.mp hy) h))
    · exact absurd hxy.symm
        (Nat.ne_of_lt (ordRank_lt hfl (List.mem_range.mp hy)
          (List.mem_range.mp hx) h))
  have hsub : ((List.range bs.length).map (fun i => ordRank bs i)) ⊆
      ((List.range bs.length).map (fun k => k + 1)) := by
    intro m hm
    obtain ⟨i, hi, rfl⟩ := List.mem_map.mp hm
    have h1 : 1 ≤ ordRank bs i := by unfold ordRank; omega
    have h2 : ordRank bs i ≤ bs.length := ordRank_le (List.mem_range.mp hi)
    exact List.mem_map.mpr ⟨ordRank bs i - 1,
      List.mem_range.mpr (by omega), by omega⟩
  exact (List.subperm_of_subset hnd hsub).perm_of_length_le (by simp)

/-- Reading the appended column back out of the decorated rows. -/
theorem lastCol_zipWith {h : List String} {name : String} (hnr : name ∉ h) :
    ∀ (rows : List (List Val)) (vals : List Val),
    vals.length = rows.length →
    (∀ r ∈ rows, r.length = h.length) →
    (rows.zipWith (fun r v => r ++ [v]) vals).map
      (fun row => rowGet (h ++ [name]) row name) = vals.map some := by
  intro rows
  induction rows with
  | nil =>
    intro vals hlen _
    cases vals with
    | nil => simp
    | cons v vs => simp at hlen
  | cons r rest ih =>
    intro vals hlen hw
    cases vals with
    | nil => simp at hlen
    | cons v vs =>
      simp only [List.zipWith_cons_cons, List.map_cons]
      congr 1
      · rw [rowGet_append_none [name] [v]
          (hw r (List.mem_cons_self _ _)) (rowGet_eq_none_of_not_mem hnr r)]
        simp [rowGet]
      · exact ih vs (by simpa using hlen)
          (fun x hx => hw x (List.mem_cons_of_mem _ hx))

/-- The rank cell of row `i` holds its ordinal descending rank. -/
theorem rankCell_eq {t out : Table}
    (hwf : t.WF) (hnr : "BMI_RANK" ∉ t.header)
    (hok : ranked_bmi_table t = .ok out) {i : Nat} (hi : i < t.rows.length) :
    rowGet out.header (out.rows.getD i []) "BMI_RANK" =
      some (.vInt (ordRank (bmiList t) i)) := by
  have hbm : t.header.contains "BMI" = true := by
    unfold ranked_bmi_table at hok
    split at hok
    · rename_i hcond
      exact hcond
    · simp at hok
  unfold ranked_bmi_table at hok
  rw [if_pos hbm, Except.ok.injEq] at hok
  subst hok
  unfold withColumn
  rw [if_neg (by simpa [List.contains] using hnr)]
  have hlen : i < (t.rows.zipWith (fun r v => r ++ [v])
      ((List.range t.rows.length).map (fun i =>
        Val.vInt (ordRank (bmiList t) i)))).length := by
    simpa using hi
  rw [List.getD_eq_getElem _ [] hlen, List.getElem_zipWith]
  have hrow : t.rows[i] ∈ t.rows := List.getElem_mem (by simpa using hlen)
  rw [rowGet_append_none ["BMI_RANK"] _
    (hwf _ hrow) (rowGet_eq_none_of_not_mem hnr _)]
  simp [rowGet]

/-- Claim C3: the rank step assigns `BMI_RANK` values that are a
permutation of `1, …, n` (ties get distinct ranks), descending — a row
ranked 1 has no strictly larger BMI anywhere — with ties broken by the
stable first-occurrence order. -/
theorem C3_bmi_rank (t out : Table)
    (hwf : t.WF) (hnr : "BMI_RANK" ∉ t.header)
    (hfl : ∀ b ∈ bmiList t, isFloatV b = true)
    (_hpos : 0 < t.rows.length)
    (hok : ranked_bmi_table t = .ok out) :
    ((out.rows.map (fun r => rowGet out.header r "BMI_RANK")).Perm
      ((List.range t.rows.length).map
        (fun k => some (Val.vInt (Int.ofNat (k + 1)))))) ∧
    (∀ i, i < t.rows.length →
      rowGet out.header (out.rows.getD i []) "BMI_RANK" = some (.vInt 1) →
      ∀ j, j < t.rows.length →
        valLt ((bmiList t).getD i .vNull) ((bmiList t).getD j .vNull) = false) ∧
    (∀ i j, i < j → j < t.rows.length →
      (bmiList t).getD i .vNull = (bmiList t).getD j .vNull →
      ∃ ri rj : Int,
        rowGet out.header (out.rows.getD i []) "BMI_RANK" = some (.vInt ri) ∧
        rowGet out.header (out.rows.getD j []) "BMI_RANK" = some (.vInt rj) ∧
        ri < rj) := by
  have hn : (bmiList t).length = t.rows.length := by
    unfold bmiList
    simp
  refine ⟨?_, ?_, ?_⟩
  · -- the permutation of the whole rank column
    have hbm : t.header.contains "BMI" = true := by
      unfold ranked_bmi_table at hok
      split at hok
      · rename_i hcond
        exact hcond
      · simp at hok
    have hok2 := hok
    unfold ranked_bmi_table at hok2
    rw [if_pos hbm, Except.ok.injEq] at hok2
    subst hok2
    unfold withColumn
    rw [if_neg (by simpa [List.contains] using hnr)]
    rw [lastCol_zipWith hnr t.rows _ (by simp) hwf]
    rw [List.map_map]
    have hperm := List.Perm.map (fun m : Nat => some (Val.vInt (Int.ofNat m)))
      (ordRank_perm (bmiList t) hfl)
    rw [List.map_map, List.map_map, hn] at hperm
    exact hperm
  · -- a rank-1 row has a maximal BMI
    intro i hi hcell j hj
    rw [rankCell_eq hwf hnr hok hi] at hcell
    have hrank : ordRank (bmiList t) i = 1 := by
      have := Option.some_inj.mp hcell
      have h2 : (ordRank (bmiList t) i : Int) = 1 := by
        injection this
      exact_mod_cast h2
    unfold ordRank at hrank
    have hzero : ((List.range (bmiList t).length).filter
        (fun m => rankPrec (bmiList t) m i)).length = 0 := by omega
    have hempty := List.length_eq_zero.mp hzero
    cases hpj : rankPrec (bmiList t) j i
    · simp only [rankPrec, Bool.or_eq_false_iff] at hpj
      exact hpj.1
    · have hjmem : j ∈ (List.range (bmiList t).length).filter
          (fun m => rankPrec (bmiList t) m i) :=
        List.mem_filter.mpr ⟨List.mem_range.mpr (by omega), hpj⟩
      rw [hempty] at hjmem
      simp at hjmem
  · -- stable tie-break: the earlier of two equal BMIs ranks first
    intro i j hij hj heq
    have hi : i < t.rows.length := lt_trans hij hj
    refine ⟨(ordRank (bmiList t) i : Int), (ordRank (bmiList t) j : Int),
      rankCell_eq hwf hnr hok hi, rankCell_eq hwf hnr hok hj, ?_⟩
    have hprec : rankPrec (bmiList t) i j = true := by
      simp only [rankPrec, Bool.or_eq_true, Bool.and_eq_true, decide_eq_true_eq]
      exact Or.inr ⟨heq, hij⟩
    have := ordRank_lt hfl (by omega) (by omega) hprec
    exact_mod_cast this

/-- Claim C3 witness: BMI values 10, 25, 25, 5 receive the rank column
3, 1, 2, 4 — a permutation of 1..4 with the tied 25s taking ranks 1 and
2 in row order and 10 and 5 taking ranks 3 and 4. -/
theorem C3_bmi_rank_witness :
    ranked_bmi_table bmiT =
      .ok ⟨["ID", "BMI", "BMI_RANK"],
        [[.vInt 1, .vRat 10, .vInt 3], [.vInt 2, .vRat 25, .vInt 1],
         [.vInt 3, .vRat 25, .vInt 2], [.vInt 4, .vRat 5, .vInt 4]]⟩ ∧
    ((Table.mk ["ID", "BMI", "BMI_RANK"]
        [[Val.vInt 1, Val.vRat 10, Val.vInt 3], [Val.vInt 2, Val.vRat 25, Val.vInt 1],
         [Val.vInt 3, Val.vRat 25, Val.vInt 2], [Val.vInt 4, Val.vRat 5, Val.vInt 4]]).rows.map
      (fun r => rowGet ["ID", "BMI", "BMI_RANK"] r "BMI_RANK")).Perm
      ((List.range bmiT.rows.length).map
        (fun k => some (Val.vInt (Int.ofNat (k + 1))))) := by
  have hok : ranked_bmi_table bmiT =
      .ok ⟨["ID", "BMI", "BMI_RANK"],
        [[.vInt 1, .vRat 10, .vInt 3], [.vInt 2, .vRat 25, .vInt 1],
         [.vInt 3, .vRat 25, .vInt 2], [.vInt 4, .vRat 5, .vInt 4]]⟩ := by decide
  refine ⟨hok, ?_⟩
  exact (C3_bmi_rank bmiT _ (by decide) (by decide) (by decide) (by decide) hok).1

end PokemonEtl
